import Mathlib

/-!
# Verification of the SGA2029 Data & Query Layer (`src/lib/core.ts`)

Shallow embedding of the query/derivation layer: route parsing and
formatting, transaction filtering/sorting/pagination, KPI aggregation,
CSV export, and the explain-this-view composer.

Modelling conventions:
* JS strings are modelled as Lean `String` (a list of Unicode scalar
  values); JS string comparison (`<`), `includes`, `startsWith`,
  `trim`, `toLowerCase` are modelled character-wise (ASCII-faithful
  lowercasing, as the data in this layer is ASCII).
* JS numbers appearing here are integers (cents, page numbers); they
  are modelled as `Int`/`Nat`.  `Math.ceil(a/b)` on non-negative
  integers is modelled as `(a + b - 1) / b`.
* Fallible platform operations (`decodeURIComponent`, which throws
  `URIError`) are modelled with `Option`.
-/

set_option maxHeartbeats 1000000

namespace SGA

/-! ## JS string primitives -/

/-- The JS `\s` whitespace class (the members that can occur here). -/
def jsWhitespace : List Char :=
  [' ', '\t', '\n', '\r', Char.ofNat 11, Char.ofNat 12, Char.ofNat 0xA0, Char.ofNat 0xFEFF]

def isJsWs (c : Char) : Bool := jsWhitespace.contains c

/-- `String.prototype.trim`. -/
def jsTrim (s : String) : String :=
  ⟨((s.data.dropWhile isJsWs).reverse.dropWhile isJsWs).reverse⟩

/-- `String.prototype.toLowerCase`, ASCII-faithful. -/
def jsToLower (s : String) : String := ⟨s.data.map Char.toLower⟩

/-- Does `pre` occur at the head of `l`? (`String.prototype.startsWith`). -/
def startsWithAux : List Char → List Char → Bool
  | [], _ => true
  | _ :: _, [] => false
  | a :: as, b :: bs => a == b && startsWithAux as bs

/-- Does `needle` occur inside `l`? (`String.prototype.includes`). -/
def infixAux (needle : List Char) : List Char → Bool
  | [] => startsWithAux needle []
  | c :: rest => startsWithAux needle (c :: rest) || infixAux needle rest

def jsIncludes (hay needle : String) : Bool := infixAux needle.data hay.data

def jsStartsWith (s pre : String) : Bool := startsWithAux pre.data s.data

/-- JS `<` on strings: lexicographic comparison of the character sequences. -/
def ltCharList : List Char → List Char → Bool
  | [], [] => false
  | [], _ :: _ => true
  | _ :: _, [] => false
  | a :: as, b :: bs =>
    if a.toNat < b.toNat then true
    else if b.toNat < a.toNat then false
    else ltCharList as bs

def jsLt (a b : String) : Bool := ltCharList a.data b.data

/-- `Array.prototype.join`. -/
def joinStr (sep : String) : List String → String
  | [] => ""
  | [s] => s
  | s :: rest => s ++ sep ++ joinStr sep rest

/-! ## Data model (`core.ts` §0) -/

inductive TxnType
  | allocation | expense | revenue | transfer
deriving DecidableEq, Repr

structure Transaction where
  id : String
  date : String
  type : TxnType
  amountCents : Int
  vendor : Option String := none
  memo : Option String := none
  eventId : Option String := none
  billId : Option String := none
  link : Option String := none
deriving DecidableEq, Repr

structure KPIs where
  currentBalanceCents : Int
  inflowYTD : Int
  outflowYTD : Int
deriving DecidableEq, Repr

/-! ## Filters / sorts / pagination (`core.ts` §5) -/

/-- The `type` field of a filter: one of the four types, or `"all"`. -/
inductive TypeFilter
  | all | only (t : TxnType)
deriving DecidableEq, Repr

/-- `TxnFilter`; absent (`undefined`) optional fields are `none`.
`from` and `to` are Lean keywords, hence `from_`/`to_`. -/
structure TxnFilter where
  type : Option TypeFilter := none
  from_ : Option String := none
  to_ : Option String := none
  search : Option String := none
  eventId : Option String := none
  billId : Option String := none
deriving DecidableEq, Repr

/-- The haystack `` `${r.vendor || ""} ${r.memo || ""}` `` of the search test. -/
def searchHay (r : Transaction) : String :=
  (r.vendor.getD "") ++ " " ++ (r.memo.getD "")

/-- The row predicate of `filterTransactions`, with the early-return `if`
chain rendered as a conjunction.  A `some ""` string field is falsy in JS,
hence the `s == "" || _` disjuncts. -/
def filterPred (f : TxnFilter) (needle : String) (r : Transaction) : Bool :=
  (match f.type with
   | some TypeFilter.all => true
   | some (TypeFilter.only t) => r.type == t
   | none => true)
  && (match f.from_ with
      | some s => s == "" || !(jsLt r.date s)
      | none => true)
  && (match f.to_ with
      | some s => s == "" || !(jsLt s r.date)
      | none => true)
  && (match f.eventId with
      | some s => s == "" || r.eventId == some s
      | none => true)
  && (match f.billId with
      | some s => s == "" || r.billId == some s
      | none => true)
  && (needle == "" || jsIncludes (jsToLower (searchHay r)) needle)

def filterTransactions (rows : List Transaction) (f : TxnFilter) : List Transaction :=
  let needle := jsToLower (jsTrim (f.search.getD ""))
  rows.filter (filterPred f needle)

inductive TxnSortKey
  | date_desc | date_asc | amount_desc | amount_asc
deriving DecidableEq, Repr

/-- `Array.prototype.sort` with a consistent comparator `cmp` is (per
ECMAScript) the stable sort by the total preorder `cmp a b ≤ 0`; we model it
with the stable `List.mergeSort`, keeping `a` before `b` iff `cmp a b ≤ 0`. -/
def sortTransactions (rows : List Transaction) (key : TxnSortKey) : List Transaction :=
  match key with
  | .date_desc => rows.mergeSort (fun a b => !(jsLt a.date b.date))
  | .date_asc => rows.mergeSort (fun a b => !(jsLt b.date a.date))
  | .amount_desc => rows.mergeSort (fun a b => b.amountCents ≤ a.amountCents)
  | .amount_asc => rows.mergeSort (fun a b => a.amountCents ≤ b.amountCents)

def clamp (n lo hi : Int) : Int := min hi (max lo n)

/-- `Array.prototype.slice(s, e)` with JS index normalisation. -/
def jsSlice {T : Type} (l : List T) (s e : Int) : List T :=
  let len : Int := l.length
  let s' := if s < 0 then max (len + s) 0 else min s len
  let e' := if e < 0 then max (len + e) 0 else min e len
  (l.take e'.toNat).drop s'.toNat

structure Paged (T : Type) where
  page : Int
  pageSize : Int
  total : Int
  pages : Int
  rows : List T
deriving Repr

/-- `paginate`; `Math.ceil(total / Math.max(1, pageSize))` on the
non-negative integer `total` is `(total + k - 1) / k`. -/
def paginate {T : Type} (rows : List T) (page pageSize : Int) : Paged T :=
  let total : Int := rows.length
  let k : Int := max 1 pageSize
  let pages : Int := max 1 ((total + k - 1) / k)
  let p := clamp page 1 pages
  let start := (p - 1) * pageSize
  let stop := min (start + pageSize) total
  { page := p, pageSize := pageSize, total := total, pages := pages,
    rows := jsSlice rows start stop }

/-! ## KPIs (`core.ts` §6)

The source defaults the year to `new Date().getFullYear()`; the wall clock
is outside the model, so the target year is an explicit argument here (the
claims quantify over the target year). -/

/-- The loop body of `computeKPIs`. -/
def kpiStep (yStr : String) (k : KPIs) (r : Transaction) : KPIs :=
  let bal := k.currentBalanceCents + r.amountCents
  if jsStartsWith r.date yStr then
    if 0 ≤ r.amountCents then
      ⟨bal, k.inflowYTD + r.amountCents, k.outflowYTD⟩
    else
      ⟨bal, k.inflowYTD, k.outflowYTD + r.amountCents⟩
  else ⟨bal, k.inflowYTD, k.outflowYTD⟩

def computeKPIs (rows : List Transaction) (year : Nat) : KPIs :=
  rows.foldl (kpiStep (toString year)) ⟨0, 0, 0⟩

/-! ## Route model (`core.ts` §2)

`routeOf` feeds its input through the WHATWG URL parser (`new URL`) and
reads back `pathname`.  We model the pathname computation for *path*
inputs (strings without `://`, the source's relative branch — every
`hrefFor` output is of this shape): cut at the first `?`/`#`, treat `\`
as `/` (https is a special scheme), split on `/`, resolve dot segments.
The parser's percent-encoding of stray pathname characters (space, `"`,
`<`, …) is omitted: `decodeURIComponent` maps those sequences straight
back, and the encoding never changes whether a segment equals one of the
route keywords (which contain no encodable characters). -/

inductive ParsedRoute
  | home
  | events
  | eventDetail (id : String)
  | ledger
  | bills
  | billDetail (id : String)
  | proposals
  | team
  | admin
deriving DecidableEq, Repr

/-- The characters `encodeURIComponent` leaves unescaped. -/
def isUnreserved (c : Char) : Bool :=
  let v := c.toNat
  (65 ≤ v && v ≤ 90) || (97 ≤ v && v ≤ 122) || (48 ≤ v && v ≤ 57)
  || v == 45 || v == 95 || v == 46 || v == 33 || v == 126 || v == 42
  || v == 39 || v == 40 || v == 41

/-- UTF-8 bytes of a Unicode scalar value, written with `/`/`%`. -/
def utf8Bytes (v : Nat) : List Nat :=
  if v < 0x80 then [v]
  else if v < 0x800 then [0xC0 + v / 64, 0x80 + v % 64]
  else if v < 0x10000 then [0xE0 + v / 4096, 0x80 + v / 64 % 64, 0x80 + v % 64]
  else [0xF0 + v / 262144, 0x80 + v / 4096 % 64, 0x80 + v / 64 % 64, 0x80 + v % 64]

/-- Uppercase hex digit, as `encodeURIComponent` emits. -/
def hexDigit (n : Nat) : Char := if n < 10 then Char.ofNat (48 + n) else Char.ofNat (55 + n)

def pctByte (b : Nat) : List Char := ['%', hexDigit (b / 16), hexDigit (b % 16)]

def encChar (c : Char) : List Char :=
  if isUnreserved c then [c] else (utf8Bytes c.toNat).flatMap pctByte

def encodeURIComponent (s : String) : String := ⟨s.data.flatMap encChar⟩

def hexVal (c : Char) : Option Nat :=
  let v := c.toNat
  if 48 ≤ v && v ≤ 57 then some (v - 48)
  else if 65 ≤ v && v ≤ 70 then some (v - 55)
  else if 97 ≤ v && v ≤ 102 then some (v - 87)
  else none

/-- Byte sequence of a percent-encoded string: a `%XX` triple is one byte,
any other character contributes its UTF-8 bytes.  `none` models the
`URIError` thrown on a malformed `%` sequence. -/
def pctBytes : List Char → Option (List Nat)
  | [] => some []
  | c :: rest =>
    if c = '%' then
      match rest with
      | h :: l :: rest' =>
        match hexVal h, hexVal l, pctBytes rest' with
        | some hv, some lv, some bs => some ((16 * hv + lv) :: bs)
        | _, _, _ => none
      | _ => none
    else
      match pctBytes rest with
      | some bs => some (utf8Bytes c.toNat ++ bs)
      | none => none

/-- Decode one UTF-8 scalar from the front of a byte list: strict
decoding (rejects overlong forms — a decoded value below the range of its
byte count — surrogates and values above U+10FFFF), as ECMAScript
`Decode` requires.  Returns the scalar and the remaining bytes. -/
def utf8DecodeOne : List Nat → Option (Char × List Nat)
  | [] => none
  | b :: rest =>
    if b < 0x80 then some (Char.ofNat b, rest)
    else if 0xC0 ≤ b && b ≤ 0xDF then
      match rest with
      | c1 :: rest1 =>
        let w := (b - 0xC0) * 64 + (c1 - 0x80)
        if (0x80 ≤ c1 && c1 ≤ 0xBF) && 0x80 ≤ w then some (Char.ofNat w, rest1) else none
      | [] => none
    else if 0xE0 ≤ b && b ≤ 0xEF then
      match rest with
      | c1 :: c2 :: rest2 =>
        let w := (b - 0xE0) * 4096 + (c1 - 0x80) * 64 + (c2 - 0x80)
        if ((0x80 ≤ c1 && c1 ≤ 0xBF) && (0x80 ≤ c2 && c2 ≤ 0xBF))
            && (0x800 ≤ w && (w < 0xD800 || 0xDFFF < w)) then
          some (Char.ofNat w, rest2)
        else none
      | _ => none
    else if 0xF0 ≤ b && b ≤ 0xF7 then
      match rest with
      | c1 :: c2 :: c3 :: rest3 =>
        let w := (b - 0xF0) * 262144 + (c1 - 0x80) * 4096 + (c2 - 0x80) * 64 + (c3 - 0x80)
        if ((0x80 ≤ c1 && c1 ≤ 0xBF) && (0x80 ≤ c2 && c2 ≤ 0xBF) && (0x80 ≤ c3 && c3 ≤ 0xBF))
            && (0x10000 ≤ w && w < 0x110000) then
          some (Char.ofNat w, rest3)
        else none
      | _ => none
    else none

/-- Fuel-driven decoding loop; each step consumes at least one byte, so
a fuel of the byte count always suffices. -/
def utf8DecodeAux : Nat → List Nat → Option (List Char)
  | _, [] => some []
  | 0, _ :: _ => none
  | fuel + 1, b :: rest =>
    match utf8DecodeOne (b :: rest) with
    | some (c, rest2) =>
      match utf8DecodeAux fuel rest2 with
      | some cs => some (c :: cs)
      | none => none
    | none => none

def utf8Decode (l : List Nat) : Option (List Char) := utf8DecodeAux l.length l

/-- `decodeURIComponent`; `none` models a thrown `URIError`.  (Collecting
all bytes first and UTF-8-decoding once is equivalent to decoding each
maximal `%` run separately: no character's UTF-8 bytes start with a
continuation byte, so an invalid run can never be completed by the bytes
of a following literal character.) -/
def decodeURIComponent (s : String) : Option String :=
  match pctBytes s.data with
  | some bs =>
    match utf8Decode bs with
    | some cs => some ⟨cs⟩
    | none => none
  | none => none

/-- Dot segments of the WHATWG path parser (`.` and its encodings). -/
def isDotSeg (s : String) : Bool := s == "." || s == "%2e" || s == "%2E"

/-- Double-dot segments of the WHATWG path parser. -/
def isDotDotSeg (s : String) : Bool :=
  s == ".." || s == ".%2e" || s == ".%2E" || s == "%2e." || s == "%2E."
  || s == "%2e%2e" || s == "%2e%2E" || s == "%2E%2e" || s == "%2E%2E"

def splitSlash : List Char → List String
  | [] => [""]
  | c :: rest =>
    if c == '/' then "" :: splitSlash rest
    else
      match splitSlash rest with
      | s :: ss => (⟨c :: s.data⟩ : String) :: ss
      | [] => [⟨[c]⟩]

def removeDotSegs (segs : List String) : List String :=
  segs.foldl
    (fun acc s =>
      if isDotSeg s then acc
      else if isDotDotSeg s then acc.dropLast
      else acc ++ [s])
    []

/-- The segment list the source computes:
`url.pathname.replace(slash-trim regex, "").split("/").filter(Boolean)`. -/
def pathParts (path : String) : List String :=
  (removeDotSegs (splitSlash
      ((path.data.takeWhile (fun c => c != '?' && c != '#')).map
        (fun c => if c == '\\' then '/' else c)))).filter
    (fun s => s != "")

/-- `routeOf`, for path inputs.  `none` models a thrown `URIError` from
`decodeURIComponent` on a malformed detail id. -/
def routeOf (urlOrPath : String) : Option ParsedRoute :=
  match pathParts urlOrPath with
  | [] => some .home
  | seg0 :: rest =>
    if seg0 == "events" then
      match rest with
      | id :: _ => (decodeURIComponent id).map .eventDetail
      | [] => some .events
    else if seg0 == "ledger" then some .ledger
    else if seg0 == "bills" then
      match rest with
      | id :: _ => (decodeURIComponent id).map .billDetail
      | [] => some .bills
    else if seg0 == "proposals" then some .proposals
    else if seg0 == "team" then some .team
    else if seg0 == "admin" then some .admin
    else some .home

def hrefFor : ParsedRoute → String
  | .home => "/"
  | .events => "/events"
  | .eventDetail id => "/events/" ++ encodeURIComponent id
  | .ledger => "/ledger"
  | .bills => "/bills"
  | .billDetail id => "/bills/" ++ encodeURIComponent id
  | .proposals => "/proposals"
  | .team => "/team"
  | .admin => "/admin"

/-! ## Seed data (`core.ts` §4) — the entities the claims consult -/

/-- `cents`: dollars → cents.  The source rounds (`Math.round(n * 100)`);
every seed passes an integer, for which this is exact. -/
def cents (n : Int) : Int := n * 100

inductive EventType
  | Social | Service | Philanthropy | Workshop | Other
deriving DecidableEq, Repr

inductive Committee
  | CommunityService | Philanthropy | SocialEvents | EventFunding | SocialMedia
deriving DecidableEq, Repr

structure EventItem where
  id : String
  title : String
  date : String
  location : String
  type : EventType
  committee : Committee
  estimateCents : Option Int := none
  poster : Option String := none
  summary : Option String := none
deriving DecidableEq, Repr

def events : List EventItem :=
  [{ id := "e-boba", title := "Boba Recharge & Refresh", date := "2025-11-20T18:00:00-05:00",
     location := "Panther Commons", type := .Social, committee := .SocialEvents,
     estimateCents := some (cents 900), poster := some "/img/gallery-1.jpg",
     summary := some "Grab boba, decompress, and meet your class." },
   { id := "e-crown", title := "The Crown Affair (Poker Night)", date := "2025-11-18T19:30:00-05:00",
     location := "Panther Commons Ballroom", type := .Social, committee := .SocialEvents,
     estimateCents := some (cents 2500), poster := some "/img/gallery-2.jpg",
     summary := some "A classy night with mocktails, prizes, and networking." },
   { id := "e-serve", title := "Jump Rope for Her", date := "2026-02-15T11:00:00-05:00",
     location := "Slane Courts", type := .Philanthropy, committee := .Philanthropy,
     estimateCents := some (cents 1200), poster := some "/img/hero.jpg",
     summary := some "Fundraiser & awareness event with community partners." }]

inductive BillStatus
  | Draft | Submitted | Approved | Denied | Revised
deriving DecidableEq, Repr

structure Bill where
  id : String
  title : String
  amountCents : Int
  status : BillStatus
  committee : Committee
  submittedAt : String
  decidedAt : Option String := none
  justification : Option String := none
  attachments : Option (List String) := none
deriving DecidableEq, Repr

def bills : List Bill :=
  [{ id := "b-001", title := "Boba Recharge Supplies", amountCents := cents 900,
     status := .Approved, committee := .SocialEvents, submittedAt := "2025-11-05T09:30:00-05:00",
     decidedAt := some "2025-11-06T14:10:00-05:00",
     justification := some "100 cups @ $6 avg, covers tax/fees; popular stress-relief." },
   { id := "b-002", title := "The Crown Affair Prizes", amountCents := cents 2000,
     status := .Submitted, committee := .SocialEvents, submittedAt := "2025-11-10T12:00:00-05:00",
     justification := some "Prizes drive turnout; curated for inclusive engagement." },
   { id := "b-003", title := "Service Event Equipment", amountCents := cents 600,
     status := .Draft, committee := .Philanthropy, submittedAt := "2025-11-12T16:20:00-05:00" }]

def transactions : List Transaction :=
  [{ id := "t-alloc-1", date := "2025-08-28", type := .allocation, amountCents := cents 8000,
     memo := some "Fall allocation" },
   { id := "t-alloc-2", date := "2025-10-01", type := .allocation, amountCents := cents 2000,
     memo := some "Supplemental allocation" },
   { id := "t-exp-1", date := "2025-11-06", type := .expense, amountCents := -cents 900,
     vendor := some "Boba Vendor LLC", memo := some "Boba Recharge",
     eventId := some "e-boba", billId := some "b-001", link := some "#" },
   { id := "t-exp-2", date := "2025-11-20", type := .expense, amountCents := -cents 480,
     vendor := some "Print House", memo := some "Posters & table tents",
     eventId := some "e-boba", link := some "#" },
   { id := "t-exp-3", date := "2025-11-19", type := .expense, amountCents := -cents 650,
     vendor := some "Decor Co", memo := some "Poker Night decor",
     eventId := some "e-crown", billId := some "b-002", link := some "#" },
   { id := "t-rev-1", date := "2025-11-21", type := .revenue, amountCents := cents 120,
     vendor := some "Donations", memo := some "Tip jar after boba" },
   { id := "t-tr-1", date := "2025-09-05", type := .transfer, amountCents := -cents 300,
     memo := some "Shared cost to another org" }]

/-! ## CSV builder (`core.ts` §7)

A column's `value` may return `string | number | null | undefined`; the
source funnels every non-null result through `String(...)`, so the model
takes the column function already stringified and `Option` for
null/undefined. -/

structure CSVColumn (T : Type) where
  key : String
  title : String
  value : T → Nat → Option String

def valueString (v : Option String) : String := v.getD ""

/-- `s.replace` doubling every double quote. -/
def doubleQuotes : List Char → List Char
  | [] => []
  | c :: rest =>
    if c == '"' then '"' :: '"' :: doubleQuotes rest else c :: doubleQuotes rest

def csvEscape (s : String) (delimiter : String) : String :=
  let needs := jsIncludes s delimiter || jsIncludes s "\"" || jsIncludes s "\n"
  if needs then ⟨'"' :: (doubleQuotes s.data ++ ['"'])⟩ else s

def toCSV {T : Type} (rows : List T) (cols : List (CSVColumn T)) (delimiter : String) : String :=
  let head := joinStr delimiter (cols.map (fun c => csvEscape c.title delimiter))
  let body := joinStr "\n"
    (rows.enum.map (fun ri =>
      joinStr delimiter
        (cols.map (fun c => csvEscape (valueString (c.value ri.2 ri.1)) delimiter))))
  head ++ "\n" ++ body

/-! A standard CSV reader (the "standard CSV grammar" of the spec):
records separated by LF, fields by a single-character delimiter, quoted
fields per RFC 4180 with `""` as a literal quote.  Every LF outside
quotes separates records. -/

/-- Body of a quoted field after its opening quote: `""` is a literal
quote, a lone `"` closes the field. -/
def scanQuoted : List Char → List Char × List Char
  | [] => ([], [])
  | c :: rest =>
    if c = '"' then
      match rest with
      | c2 :: rest2 =>
        if c2 = '"' then
          let p := scanQuoted rest2
          ('"' :: p.1, p.2)
        else ([], rest)
      | [] => ([], [])
    else
      let p := scanQuoted rest
      (c :: p.1, p.2)

/-- One field: quoted if it starts with `"`, else up to `d`/LF. -/
def scanField (d : Char) (s : List Char) : List Char × List Char :=
  match s with
  | c :: rest =>
    if c = '"' then scanQuoted rest
    else ((c :: rest).takeWhile (fun x => x != d && x != '\n'),
      (c :: rest).dropWhile (fun x => x != d && x != '\n'))
  | [] => ([], [])

/-- One record: fields separated by `d`, ended by LF or end of input. -/
def scanRecord (d : Char) : Nat → List Char → List String × List Char
  | 0, s => ([], s)
  | fuel + 1, s =>
    let p := scanField d s
    match p.2 with
    | [] => ([⟨p.1⟩], [])
    | c :: r' =>
      if c == d then
        let q := scanRecord d fuel r'
        ((⟨p.1⟩ : String) :: q.1, q.2)
      else ([⟨p.1⟩], r')

def fromCSVAux (d : Char) : Nat → List Char → List (List String)
  | 0, _ => []
  | _, [] => []
  | fuel + 1, s =>
    let p := scanRecord d (s.length + 1) s
    p.1 :: fromCSVAux d fuel p.2

def fromCSV (d : Char) (s : String) : List (List String) :=
  fromCSVAux d (s.data.length + 1) s.data

/-! ## Explain-this-view composer (`core.ts` §8) -/

def labelTxnType : TxnType → String
  | .allocation => "allocations"
  | .expense => "expenses"
  | .revenue => "revenues"
  | .transfer => "transfers"

/-- A `some ""` option is falsy in JS. -/
def jsTruthy (o : Option String) : Bool := o.getD "" != ""

def typeClause (f : TxnFilter) : String :=
  match f.type with
  | some (.only t) => labelTxnType t
  | _ => "all transaction types"

def dateClause (f : TxnFilter) : List String :=
  if jsTruthy f.from_ && jsTruthy f.to_ then
    ["from " ++ f.from_.getD "" ++ " to " ++ f.to_.getD ""]
  else if jsTruthy f.from_ then ["from " ++ f.from_.getD ""]
  else if jsTruthy f.to_ then ["up to " ++ f.to_.getD ""]
  else []

def eventClause (f : TxnFilter) : List String :=
  match f.eventId with
  | some id =>
    if id == "" then []
    else ["for event “" ++ (((events.find? (fun e => e.id == id)).map (·.title)).getD id) ++ "”"]
  | none => []

def billClause (f : TxnFilter) : List String :=
  match f.billId with
  | some id =>
    if id == "" then []
    else ["linked to bill “" ++ (((bills.find? (fun b => b.id == id)).map (·.title)).getD id) ++ "”"]
  | none => []

def searchClause (f : TxnFilter) : List String :=
  match f.search with
  | some s => if jsTrim s != "" then ["matching “" ++ jsTrim s ++ "”"] else []
  | none => []

def sortLabel : TxnSortKey → String
  | .date_desc => "most recent first"
  | .date_asc => "oldest first"
  | .amount_desc => "highest amount first"
  | .amount_asc => "lowest amount first"

/-- The final `replace` of `explainTransactionsView`: the global regex
substituting each whitespace run followed by a comma with a bare comma. -/
def tidyAux : Nat → List Char → List Char
  | 0, s => s
  | _ + 1, [] => []
  | fuel + 1, c :: rest =>
    if isJsWs c then
      match rest.dropWhile isJsWs with
      | ',' :: tail => ',' :: tidyAux fuel tail
      | _ => (c :: rest.takeWhile isJsWs) ++ tidyAux fuel (rest.dropWhile isJsWs)
    else c :: tidyAux fuel rest

def tidy (s : String) : String := ⟨tidyAux s.data.length s.data⟩

def explainTransactionsView (f : TxnFilter) (sort : TxnSortKey) : String :=
  let parts :=
    [typeClause f] ++ dateClause f ++ eventClause f ++ billClause f ++ searchClause f
  tidy ("Showing " ++ joinStr ", " parts ++ ", " ++ sortLabel sort ++ ".")

/-! ## Lemmas about the string primitives -/

theorem startsWithAux_iff (p l : List Char) : startsWithAux p l = true ↔ p <+: l := by
  induction p generalizing l with
  | nil => simp [startsWithAux]
  | cons a as ih =>
    cases l with
    | nil => simp [startsWithAux]
    | cons b bs =>
      simp [startsWithAux, List.cons_prefix_cons, ih, Bool.and_eq_true, beq_iff_eq]

theorem infixAux_iff (n l : List Char) : infixAux n l = true ↔ n <:+: l := by
  induction l with
  | nil => simp [infixAux, startsWithAux_iff, List.prefix_nil, List.infix_nil]
  | cons c rest ih =>
    simp [infixAux, Bool.or_eq_true, startsWithAux_iff, ih, List.infix_cons_iff]

theorem singleton_infix_iff (c : Char) (l : List Char) : [c] <:+: l ↔ c ∈ l := by
  induction l with
  | nil => simp
  | cons b t ih => simp [List.infix_cons_iff, List.cons_prefix_cons, ih]

theorem jsIncludes_singleton (s : String) (c : Char) :
    jsIncludes s (String.singleton c) = true ↔ c ∈ s.data := by
  rw [jsIncludes, show (String.singleton c).data = [c] from rfl, infixAux_iff,
    singleton_infix_iff]

theorem jsStartsWith_eq_decide (s p : String) :
    jsStartsWith s p = decide (p.data <+: s.data) := by
  by_cases h : p.data <+: s.data
  · rw [decide_eq_true h, jsStartsWith, startsWithAux_iff]; exact h
  · rw [decide_eq_false h, ← Bool.not_eq_true, jsStartsWith, startsWithAux_iff]; exact h

theorem char_eq_of_toNat_eq {a b : Char} (h : a.toNat = b.toNat) : a = b := by
  have h1 := Char.ofNat_toNat a
  rw [← h1, h, Char.ofNat_toNat]

theorem ltCharList_connex (a : List Char) :
    ∀ b, ltCharList a b = false → ltCharList b a = false → a = b := by
  induction a with
  | nil => intro b; cases b <;> simp [ltCharList]
  | cons x xs ih =>
    intro b
    cases b with
    | nil => simp [ltCharList]
    | cons y ys =>
      simp only [ltCharList]
      intro h1 h2
      by_cases hxy : x.toNat < y.toNat
      · rw [if_pos hxy] at h1; exact absurd h1 (by simp)
      · by_cases hyx : y.toNat < x.toNat
        · rw [if_pos hyx] at h2; exact absurd h2 (by simp)
        · rw [if_neg hxy, if_neg hyx] at h1
          rw [if_neg hyx, if_neg hxy] at h2
          have hxy' : x = y := char_eq_of_toNat_eq (by omega)
          rw [hxy', ih ys h1 h2]

theorem ltCharList_trans (a : List Char) :
    ∀ b c, ltCharList a b = true → ltCharList b c = true → ltCharList a c = true := by
  induction a with
  | nil =>
    intro b c h1 h2
    cases b with
    | nil => exact absurd h1 (by simp [ltCharList])
    | cons y ys =>
      cases c with
      | nil => exact absurd h2 (by simp [ltCharList])
      | cons z zs => simp [ltCharList]
  | cons x xs ih =>
    intro b c h1 h2
    cases b with
    | nil => exact absurd h1 (by simp [ltCharList])
    | cons y ys =>
      cases c with
      | nil => exact absurd h2 (by simp [ltCharList])
      | cons z zs =>
        simp only [ltCharList] at h1 h2 ⊢
        by_cases hxy : x.toNat < y.toNat
        · by_cases hyz : y.toNat < z.toNat
          · rw [if_pos (show x.toNat < z.toNat by omega)]
          · by_cases hzy : z.toNat < y.toNat
            · rw [if_neg hyz, if_pos hzy] at h2; exact absurd h2 (by simp)
            · rw [if_pos (show x.toNat < z.toNat by omega)]
        · by_cases hyx : y.toNat < x.toNat
          · rw [if_neg hxy, if_pos hyx] at h1; exact absurd h1 (by simp)
          · rw [if_neg hxy, if_neg hyx] at h1
            by_cases hyz : y.toNat < z.toNat
            · rw [if_pos (show x.toNat < z.toNat by omega)]
            · by_cases hzy : z.toNat < y.toNat
              · rw [if_neg hyz, if_pos hzy] at h2; exact absurd h2 (by simp)
              · rw [if_neg hyz, if_neg hzy] at h2
                rw [if_neg (show ¬ x.toNat < z.toNat by omega),
                  if_neg (show ¬ z.toNat < x.toNat by omega)]
                exact ih ys zs h1 h2

theorem ltCharList_irrefl (l : List Char) : ltCharList l l = false := by
  induction l with
  | nil => rfl
  | cons a t ih => simp [ltCharList, ih]

theorem ltCharList_asymm {x y : List Char} (h : ltCharList x y = true) :
    ltCharList y x = false := by
  rcases Bool.eq_false_or_eq_true (ltCharList y x) with h2 | h2
  · exact absurd (ltCharList_trans x y x h h2) (by simp [ltCharList_irrefl])
  · exact h2

theorem ltCharList_not_trans {x y z : List Char}
    (h1 : ltCharList x y = false) (h2 : ltCharList y z = false) :
    ltCharList x z = false := by
  rcases Bool.eq_false_or_eq_true (ltCharList x z) with h3 | h3
  · rcases Bool.eq_false_or_eq_true (ltCharList y x) with h4 | h4
    · exact absurd (ltCharList_trans y x z h4 h3) (by simp [h2])
    · rw [ltCharList_connex x y h1 h4] at h3
      exact absurd h3 (by simp [h2])
  · exact h3

/-- Stability-independent form of `List.sorted_mergeSort`. -/
theorem pairwise_mergeSort_of {α : Type} (le : α → α → Bool)
    (htrans : ∀ a b c, le a b = true → le b c = true → le a c = true)
    (htotal : ∀ a b, le a b = true ∨ le b a = true) (l : List α) :
    (l.mergeSort le).Pairwise (fun a b => le a b = true) :=
  List.sorted_mergeSort htrans (fun a b => by rcases htotal a b with h | h <;> simp [h]) l

/-! ## C9 / C10 — sorting -/

/-- **C10** (confirmed).  For every transaction list `S` and sort key `k`,
`sortTransactions(S, k)` is a permutation of `S`: same length, same
multiset of rows; nothing is dropped, duplicated or altered. -/
theorem sortTransactions_perm (rows : List Transaction) (key : TxnSortKey) :
    (sortTransactions rows key).Perm rows
    ∧ (sortTransactions rows key).length = rows.length := by
  have h : (sortTransactions rows key).Perm rows := by
    cases key <;> exact List.mergeSort_perm rows _
  exact ⟨h, h.length_eq⟩

/-- **C9** (confirmed).  `amount_asc` sorts with each signed amount ≤ the
next; `amount_desc` is the exact reverse key ordering (its key sequence is
the reverse of the ascending key sequence; ties may permute); `date_desc`
and `date_asc` order by lexicographic comparison of the ISO date strings
(`jsLt`, the character-wise model of JS string `<`).  The model is pure,
so the input list itself is untouched. -/
theorem sortTransactions_sorted (rows : List Transaction) :
    ((sortTransactions rows .amount_asc).Pairwise fun a b => a.amountCents ≤ b.amountCents)
    ∧ ((sortTransactions rows .amount_desc).Pairwise fun a b => b.amountCents ≤ a.amountCents)
    ∧ ((sortTransactions rows .amount_desc).map (·.amountCents) =
        ((sortTransactions rows .amount_asc).map (·.amountCents)).reverse)
    ∧ ((sortTransactions rows .date_desc).Pairwise fun a b => jsLt a.date b.date = false)
    ∧ ((sortTransactions rows .date_asc).Pairwise fun a b => jsLt b.date a.date = false) := by
  have hasc : (sortTransactions rows .amount_asc).Pairwise
      fun a b => a.amountCents ≤ b.amountCents := by
    refine (pairwise_mergeSort_of _ ?_ ?_ rows).imp (fun h => by simpa using h)
    · intro a b c h1 h2; simp only [decide_eq_true_eq] at *; omega
    · intro a b; simp only [decide_eq_true_eq]; omega
  have hdesc : (sortTransactions rows .amount_desc).Pairwise
      fun a b => b.amountCents ≤ a.amountCents := by
    refine (pairwise_mergeSort_of _ ?_ ?_ rows).imp (fun h => by simpa using h)
    · intro a b c h1 h2; simp only [decide_eq_true_eq] at *; omega
    · intro a b; simp only [decide_eq_true_eq]; omega
  have hdd : (sortTransactions rows .date_desc).Pairwise
      fun a b => jsLt a.date b.date = false := by
    refine (pairwise_mergeSort_of (fun a b => !(jsLt a.date b.date)) ?_ ?_ rows).imp
      (fun h => by simpa using h)
    · intro a b c h1 h2
      simp only [Bool.not_eq_true', jsLt] at *
      exact ltCharList_not_trans h1 h2
    · intro a b
      simp only [Bool.not_eq_true', jsLt]
      rcases Bool.eq_false_or_eq_true (ltCharList a.date.data b.date.data) with h | h
      · exact Or.inr (ltCharList_asymm h)
      · exact Or.inl h
  have hda : (sortTransactions rows .date_asc).Pairwise
      fun a b => jsLt b.date a.date = false := by
    refine (pairwise_mergeSort_of (fun a b => !(jsLt b.date a.date)) ?_ ?_ rows).imp
      (fun h => by simpa using h)
    · intro a b c h1 h2
      simp only [Bool.not_eq_true', jsLt] at *
      exact ltCharList_not_trans h2 h1
    · intro a b
      simp only [Bool.not_eq_true', jsLt]
      rcases Bool.eq_false_or_eq_true (ltCharList b.date.data a.date.data) with h | h
      · exact Or.inr (ltCharList_asymm h)
      · exact Or.inl h
  refine ⟨hasc, hdesc, ?_, hdd, hda⟩
  haveI : IsAntisymm Int (fun a b : Int => b ≤ a) := ⟨fun a b h1 h2 => le_antisymm h2 h1⟩
  apply List.eq_of_perm_of_sorted (r := fun a b : Int => b ≤ a)
  · have p1 : (sortTransactions rows .amount_desc).Perm rows :=
      List.mergeSort_perm rows _
    have p2 : (sortTransactions rows .amount_asc).Perm rows :=
      List.mergeSort_perm rows _
    exact ((p1.map (·.amountCents)).trans (p2.map (·.amountCents)).symm).trans
      (List.reverse_perm _).symm
  · exact List.pairwise_map.mpr (hdesc.imp fun h => h)
  · exact List.pairwise_reverse.mpr (List.pairwise_map.mpr (hasc.imp fun h => h))

/-! ## C1 / C6 — the filter -/

/-- C1's row predicate exactly as the claim states it, with "supplied"
read as "field present": type match unless `all`/absent, inclusive
from/to date bounds, exact `eventId`/`billId` matches, and the search
test. -/
def claimSat (f : TxnFilter) (r : Transaction) : Bool :=
  (match f.type with
   | some (TypeFilter.only t) => r.type == t
   | _ => true)
  && (match f.from_ with
      | some s => !(jsLt r.date s)
      | none => true)
  && (match f.to_ with
      | some s => !(jsLt s r.date)
      | none => true)
  && (match f.eventId with
      | some s => r.eventId == some s
      | none => true)
  && (match f.billId with
      | some s => r.billId == some s
      | none => true)
  && (let needle := jsToLower (jsTrim (f.search.getD ""));
      needle == "" || jsIncludes (jsToLower (searchHay r)) needle)

/-- The amended C1 row predicate: a string field counts as a supplied
predicate only when it is non-empty (JS truthiness treats `""` like an
absent field). -/
def suppliedSat (f : TxnFilter) (r : Transaction) : Bool :=
  (match f.type with
   | some (TypeFilter.only t) => r.type == t
   | _ => true)
  && (match f.from_ with
      | some s => s == "" || !(jsLt r.date s)
      | none => true)
  && (match f.to_ with
      | some s => s == "" || !(jsLt s r.date)
      | none => true)
  && (match f.eventId with
      | some s => s == "" || r.eventId == some s
      | none => true)
  && (match f.billId with
      | some s => s == "" || r.billId == some s
      | none => true)
  && (let needle := jsToLower (jsTrim (f.search.getD ""));
      needle == "" || jsIncludes (jsToLower (searchHay r)) needle)

theorem filterPred_eq_suppliedSat (f : TxnFilter) (r : Transaction) :
    filterPred f (jsToLower (jsTrim (f.search.getD ""))) r = suppliedSat f r := by
  rcases f with ⟨ft, ffrom, fto, fsearch, fev, fbill⟩
  cases ft with
  | none => rfl
  | some tf => cases tf <;> rfl

/-- **C1** (corrected).  `filterTransactions` keeps exactly the rows
satisfying the conjunction of the supplied predicates, as a subsequence
(original order preserved), and `{type: "all"}` returns the input
unchanged — where a string predicate counts as supplied only when
non-empty; with "supplied" read as merely "present" the claim fails
(`filterTransactions_counterexample`). -/
theorem filterTransactions_correct (rows : List Transaction) (f : TxnFilter) :
    (∀ r, r ∈ filterTransactions rows f ↔ r ∈ rows ∧ suppliedSat f r = true)
    ∧ (filterTransactions rows f).Sublist rows
    ∧ filterTransactions rows { type := some TypeFilter.all } = rows := by
  refine ⟨?_, ?_, ?_⟩
  · intro r
    show r ∈ rows.filter (filterPred f _) ↔ _
    rw [List.mem_filter, filterPred_eq_suppliedSat]
  · exact List.filter_sublist _
  · show rows.filter _ = rows
    rw [List.filter_eq_self]
    intro a _
    rfl

def c1Row : Transaction :=
  { id := "t-x", date := "2025-01-01", type := .expense, amountCents := -100 }

/-- C1 as stated is false on the code: with the supplied (but empty)
upper bound `to = ""`, the code keeps a row whose date is not ≤ `""` —
JS truthiness silently disables the empty-string bound. -/
theorem filterTransactions_counterexample :
    c1Row ∈ filterTransactions [c1Row] { to_ := some "" }
    ∧ claimSat { to_ := some "" } c1Row = false := by decide

theorem jsToLower_eq_empty (s : String) : jsToLower s = "" ↔ s = "" := by
  constructor
  · intro h
    have h2 : s.data.map Char.toLower = [] := congrArg String.data h
    exact String.ext (by simpa using h2)
  · intro h
    rw [h]
    rfl

/-- **C6** (corrected).  With a search-only filter, a row is kept iff the
trimmed search is empty or the lowercased trimmed search occurs in the
lowercased haystack `vendor ++ " " ++ memo` — the haystack joins vendor
and memo *with a space*, not plain concatenation (see
`searchConcat_counterexample`); an absent or blank search imposes no
restriction. -/
theorem filterTransactions_search (rows : List Transaction) (s : String) :
    (filterTransactions rows { search := some s } =
      rows.filter (fun r =>
        jsTrim s == "" ||
          jsIncludes (jsToLower ((r.vendor.getD "") ++ " " ++ (r.memo.getD "")))
            (jsToLower (jsTrim s))))
    ∧ filterTransactions rows { search := none } = rows
    ∧ (jsTrim s = "" → filterTransactions rows { search := some s } = rows) := by
  have hguard : (jsToLower (jsTrim s) == "") = (jsTrim s == "") := by
    by_cases h : jsTrim s = ""
    · rw [h]; rfl
    · have h2 : jsToLower (jsTrim s) ≠ "" := fun hh => h ((jsToLower_eq_empty _).mp hh)
      simp [h, h2]
  refine ⟨?_, ?_, ?_⟩
  · show rows.filter _ = rows.filter _
    apply List.filter_congr
    intro r _
    show filterPred _ _ r = _
    unfold filterPred searchHay
    simp only [Option.getD_some, Bool.true_and, hguard]
  · show rows.filter _ = rows
    rw [List.filter_eq_self]
    intro a _
    rfl
  · intro h
    show rows.filter _ = rows
    rw [List.filter_eq_self]
    intro a _
    show filterPred _ _ a = true
    have hne : jsToLower (jsTrim ((some s).getD "")) = "" := by
      rw [Option.getD_some, h]
      rfl
    unfold filterPred
    rw [hne]
    simp

def c6Row : Transaction :=
  { id := "t-y", date := "2025-01-01", type := .expense, amountCents := -100,
    vendor := some "ab", memo := some "cd" }

/-- C6 as stated is false on the code: the claim's haystack is the plain
concatenation `vendor ++ memo`, in which `"bc"` occurs (`"abcd"`), yet
the code joins with a space (`"ab cd"`) and rejects the row. -/
theorem searchConcat_counterexample :
    filterTransactions [c6Row] { search := some "bc" } = []
    ∧ jsIncludes (jsToLower ((c6Row.vendor.getD "") ++ (c6Row.memo.getD "")))
        (jsToLower (jsTrim "bc")) = true := by decide

/-- A small witness for the hypothesis inside C6's third conjunct: a
blank search over the seed ledger leaves it untouched. -/
theorem filterTransactions_search_witness :
    jsTrim "   " = "" ∧ filterTransactions transactions { search := some "   " } = transactions :=
  ⟨by decide, (filterTransactions_search transactions "   ").2.2 (by decide)⟩

/-! ## C4 — KPI aggregation -/

theorem computeKPIs_go (yStr : String) (rows : List Transaction) (acc : KPIs) :
    rows.foldl (kpiStep yStr) acc =
      ⟨acc.currentBalanceCents + (rows.map (·.amountCents)).sum,
       acc.inflowYTD + ((rows.filter (fun r =>
           jsStartsWith r.date yStr && decide (0 ≤ r.amountCents))).map (·.amountCents)).sum,
       acc.outflowYTD + ((rows.filter (fun r =>
           jsStartsWith r.date yStr && decide (r.amountCents < 0))).map (·.amountCents)).sum⟩ := by
  induction rows generalizing acc with
  | nil => simp
  | cons r rest ih =>
    rw [List.foldl_cons, ih]
    rcases acc with ⟨b, i, o⟩
    unfold kpiStep
    cases hsw : jsStartsWith r.date yStr with
    | false =>
      simp only [List.filter_cons, hsw, Bool.false_and, Bool.false_eq_true, if_false,
        List.map_cons, List.sum_cons, KPIs.mk.injEq]
      exact ⟨by omega, trivial, trivial⟩
    | true =>
      by_cases h2 : (0 : Int) ≤ r.amountCents
      · simp only [List.filter_cons, hsw, Bool.true_and, h2, decide_eq_true_eq,
          show ¬ r.amountCents < 0 by omega, if_true, if_false, decide_eq_false_iff_not,
          not_false_eq_true, List.map_cons, List.sum_cons, KPIs.mk.injEq]
        exact ⟨by omega, by omega, trivial⟩
      · simp only [List.filter_cons, hsw, Bool.true_and, h2, decide_eq_true_eq,
          show r.amountCents < 0 by omega, if_true, if_false, List.map_cons,
          List.sum_cons, KPIs.mk.injEq]
        exact ⟨by omega, trivial, by omega⟩

theorem sum_nonpos_of_mem {l : List Int} (h : ∀ x ∈ l, x ≤ 0) : l.sum ≤ 0 := by
  induction l with
  | nil => simp
  | cons a t ih =>
    rw [List.sum_cons]
    have := h a (by simp)
    have := ih (fun x hx => h x (by simp [hx]))
    omega

theorem filter_split_sum (l : List Transaction) (p q : Transaction → Bool) :
    ((l.filter fun r => p r && q r).map (·.amountCents)).sum
      + ((l.filter fun r => p r && !(q r)).map (·.amountCents)).sum
    = ((l.filter p).map (·.amountCents)).sum := by
  induction l with
  | nil => simp
  | cons r t ih =>
    by_cases hp : p r
    · by_cases hq : q r
      · simp [List.filter_cons, hp, hq]; omega
      · simp [List.filter_cons, hp, hq]; omega
    · simp [List.filter_cons, hp]; exact ih

/-- **C4** (confirmed).  For every transaction list and target year `y`
(the source's optional-year default `new Date().getFullYear()` merely
selects `y`): the balance sums every signed amount regardless of date;
`inflowYTD`/`outflowYTD` sum the non-negative resp. negative amounts of
the rows whose date string has the decimal rendering of `y` (4 digits for
calendar years) as a prefix; hence `outflowYTD ≤ 0` and
`inflowYTD + outflowYTD` is the net sum over exactly the year-`y` rows. -/
theorem computeKPIs_correct (rows : List Transaction) (y : Nat) :
    (computeKPIs rows y).currentBalanceCents = (rows.map (·.amountCents)).sum
    ∧ (computeKPIs rows y).inflowYTD =
        ((rows.filter (fun r => decide ((toString y).data <+: r.date.data)
            && decide (0 ≤ r.amountCents))).map (·.amountCents)).sum
    ∧ (computeKPIs rows y).outflowYTD =
        ((rows.filter (fun r => decide ((toString y).data <+: r.date.data)
            && decide (r.amountCents < 0))).map (·.amountCents)).sum
    ∧ (computeKPIs rows y).outflowYTD ≤ 0
    ∧ (computeKPIs rows y).inflowYTD + (computeKPIs rows y).outflowYTD =
        ((rows.filter (fun r => decide ((toString y).data <+: r.date.data))).map
          (·.amountCents)).sum := by
  have hsw : ∀ r : Transaction,
      jsStartsWith r.date (toString y) = decide ((toString y).data <+: r.date.data) :=
    fun r => jsStartsWith_eq_decide r.date (toString y)
  have hf1 : rows.filter (fun r => jsStartsWith r.date (toString y) && decide (0 ≤ r.amountCents))
      = rows.filter (fun r => decide ((toString y).data <+: r.date.data)
          && decide (0 ≤ r.amountCents)) :=
    List.filter_congr (fun r _ => by rw [hsw r])
  have hf2 : rows.filter (fun r => jsStartsWith r.date (toString y) && decide (r.amountCents < 0))
      = rows.filter (fun r => decide ((toString y).data <+: r.date.data)
          && decide (r.amountCents < 0)) :=
    List.filter_congr (fun r _ => by rw [hsw r])
  have hmain := computeKPIs_go (toString y) rows ⟨0, 0, 0⟩
  rw [hf1, hf2] at hmain
  have hb : (computeKPIs rows y).currentBalanceCents = (rows.map (·.amountCents)).sum := by
    rw [computeKPIs, hmain]
    simp
  have hi : (computeKPIs rows y).inflowYTD =
      ((rows.filter (fun r => decide ((toString y).data <+: r.date.data)
          && decide (0 ≤ r.amountCents))).map (·.amountCents)).sum := by
    rw [computeKPIs, hmain]
    simp
  have ho : (computeKPIs rows y).outflowYTD =
      ((rows.filter (fun r => decide ((toString y).data <+: r.date.data)
          && decide (r.amountCents < 0))).map (·.amountCents)).sum := by
    rw [computeKPIs, hmain]
    simp
  refine ⟨hb, hi, ho, ?_, ?_⟩
  · rw [ho]
    apply sum_nonpos_of_mem
    intro x hx
    simp only [List.mem_map, List.mem_filter] at hx
    rcases hx with ⟨r, ⟨_, hr⟩, rfl⟩
    simp only [Bool.and_eq_true, decide_eq_true_eq] at hr
    omega
  · rw [hi, ho]
    have hq : ∀ r : Transaction,
        decide (r.amountCents < 0) = !(decide (0 ≤ r.amountCents)) := by
      intro r
      by_cases h : (0 : Int) ≤ r.amountCents
      · simp [h, show ¬ r.amountCents < 0 by omega]
      · simp [h, show r.amountCents < 0 by omega]
    have hneg : rows.filter (fun r => decide ((toString y).data <+: r.date.data)
          && decide (r.amountCents < 0))
        = rows.filter (fun r => decide ((toString y).data <+: r.date.data)
            && !(decide (0 ≤ r.amountCents))) :=
      List.filter_congr (fun r _ => by rw [hq r])
    rw [hneg]
    exact filter_split_sum rows
      (fun r => decide ((toString y).data <+: r.date.data))
      (fun r => decide (0 ≤ r.amountCents))

/-! ## C3 — pagination -/

theorem ceil_div_bounds (t k : Int) (ht : 0 ≤ t) (hk : 1 ≤ k) :
    t ≤ max 1 ((t + k - 1) / k) * k
    ∧ (1 ≤ t → (max 1 ((t + k - 1) / k) - 1) * k < t)
    ∧ (t = 0 → max 1 ((t + k - 1) / k) = 1) := by
  have hd := Int.ediv_add_emod (t + k - 1) k
  have h0 : 0 ≤ (t + k - 1) % k := Int.emod_nonneg _ (by omega)
  have h1 : (t + k - 1) % k < k := Int.emod_lt_of_pos _ (by omega)
  set q := (t + k - 1) / k with hq
  set r := (t + k - 1) % k with hr
  rcases le_or_lt q 1 with hcase | hcase
  · rw [max_eq_left hcase]
    refine ⟨?_, fun ht1 => by linarith, fun _ => rfl⟩
    have hmul : k * q ≤ k * 1 := mul_le_mul_of_nonneg_left hcase (by omega)
    linarith
  · rw [max_eq_right (by omega : (1 : Int) ≤ q)]
    have hqk : (q - 1) * k = k * q - k := by ring
    have hqk2 : q * k = k * q := by ring
    refine ⟨by linarith, fun ht1 => by linarith, fun ht0 => ?_⟩
    exfalso
    have hmul : k * 2 ≤ k * q := mul_le_mul_of_nonneg_left (by omega) (by omega)
    linarith

theorem ceil_div_rat (t k : Int) (ht : 0 ≤ t) (hk : 1 ≤ k) :
    ⌈(t : ℚ) / (k : ℚ)⌉ = (t + k - 1) / k := by
  have hk0 : (0 : ℚ) < (k : ℚ) := by exact_mod_cast (by omega : (0 : Int) < k)
  have hd := Int.ediv_add_emod (t + k - 1) k
  have h0 : 0 ≤ (t + k - 1) % k := Int.emod_nonneg _ (by omega)
  have h1 : (t + k - 1) % k < k := Int.emod_lt_of_pos _ (by omega)
  set q := (t + k - 1) / k with hq
  set r := (t + k - 1) % k with hr
  refine Int.ceil_eq_iff.mpr ⟨?_, ?_⟩
  · rw [lt_div_iff hk0]
    have hexp : (q - 1) * k = k * q - k := by ring
    have hlt : ((q - 1) * k : Int) < t := by linarith
    exact_mod_cast hlt
  · rw [div_le_iff hk0]
    have hqk2 : q * k = k * q := by ring
    have : (t : Int) ≤ q * k := by linarith
    exact_mod_cast this

theorem jsSlice_nonneg {T : Type} (l : List T) (s e : Int) (hs0 : 0 ≤ s)
    (hsl : s ≤ l.length) (he0 : 0 ≤ e) (hel : e ≤ l.length) :
    jsSlice l s e = (l.drop s.toNat).take (e.toNat - s.toNat) := by
  simp only [jsSlice]
  rw [if_neg (by omega), if_neg (by omega), min_eq_left hsl, min_eq_left hel]
  rcases le_or_lt s e with hse | hse
  · rw [List.take_drop, show s.toNat + (e.toNat - s.toNat) = e.toNat by omega]
  · rw [show e.toNat - s.toNat = 0 by omega, List.take_zero]
    apply List.drop_eq_nil_of_le
    rw [List.length_take]
    omega

theorem toNat_nat_mul (i : Nat) (a : Int) (ha : 0 ≤ a) :
    ((i : Int) * a).toNat = i * a.toNat := by
  rcases Int.eq_ofNat_of_zero_le ha with ⟨n, rfl⟩
  rw [← Nat.cast_mul, Int.toNat_natCast, Int.toNat_natCast]

theorem flatMap_chunks {T : Type} (S : List T) (k : Nat) (n : Nat) :
    (List.range n).flatMap (fun i => (S.drop (i * k)).take k) = S.take (n * k) := by
  induction n with
  | zero => simp
  | succ m ih =>
    rw [List.range_succ, List.flatMap_append, ih]
    simp only [List.flatMap_cons, List.flatMap_nil, List.append_nil]
    rw [show (m + 1) * k = m * k + k by ring, List.take_add]

/-- The rows of an in-range page are the `(p-1)·pageSize`-offset slice. -/
theorem paginate_rows_of_le {T : Type} (S : List T) (p pageSize : Int) (hk : 1 ≤ pageSize)
    (hp1 : 1 ≤ p)
    (hple : p ≤ max 1 (((S.length : Int) + pageSize - 1) / pageSize)) :
    (paginate S p pageSize).rows
      = (S.drop ((p - 1) * pageSize).toNat).take pageSize.toNat := by
  obtain ⟨hb1, hb2, hb3⟩ := ceil_div_bounds (S.length : Int) pageSize (by positivity) hk
  set pages := max 1 (((S.length : Int) + pageSize - 1) / pageSize) with hpages
  have hclamp : clamp p 1 pages = p := by
    unfold clamp
    omega
  have hstart0 : 0 ≤ (p - 1) * pageSize := mul_nonneg (by omega) (by omega)
  have hstartle : (p - 1) * pageSize ≤ (S.length : Int) := by
    rcases Nat.eq_zero_or_pos S.length with h0 | h0
    · have : pages = 1 := hb3 (by exact_mod_cast h0)
      have : p = 1 := by omega
      simp [this, h0]
    · have hlt : (pages - 1) * pageSize < (S.length : Int) :=
        hb2 (by exact_mod_cast h0)
      have : (p - 1) * pageSize ≤ (pages - 1) * pageSize :=
        mul_le_mul_of_nonneg_right (by omega) (by omega)
      omega
  have hrows : (paginate S p pageSize).rows
      = jsSlice S ((clamp p 1 pages - 1) * pageSize)
          (min ((clamp p 1 pages - 1) * pageSize + pageSize) (S.length : Int)) := by
    simp only [paginate, max_eq_right hk, hpages]
  rw [hrows, hclamp]
  set start := (p - 1) * pageSize with hstart
  set stop := min (start + pageSize) (S.length : Int) with hstop
  have hslice := jsSlice_nonneg S start stop hstart0 hstartle (by omega) (by omega)
  rw [hslice]
  rcases le_or_lt (start + pageSize) (S.length : Int) with hin | hin
  · rw [show stop = start + pageSize from min_eq_left hin,
      show (start + pageSize).toNat - start.toNat = pageSize.toNat by omega]
  · rw [show stop = (S.length : Int) from min_eq_right (by omega)]
    have hlen : (S.drop start.toNat).length = S.length - start.toNat := by
      rw [List.length_drop]
    rw [List.take_all_of_le (by omega), List.take_all_of_le (by omega)]

/-- **C3** (confirmed).  For `pageSize ≥ 1` and any requested page: the
returned page lies in `[1, pages]`; `pages = max 1 ⌈|S| / pageSize⌉`
(at least one page even for empty input); `total = |S|`; the returned
rows are the `(page-1)·pageSize`-offset slice of `S`; and concatenating
the row slices of pages `1..pages` reconstructs `S` exactly. -/
theorem paginate_correct {T : Type} (S : List T) (page pageSize : Int) (hk : 1 ≤ pageSize) :
    1 ≤ (paginate S page pageSize).page
    ∧ (paginate S page pageSize).page ≤ (paginate S page pageSize).pages
    ∧ (paginate S page pageSize).pages = max 1 ⌈(S.length : ℚ) / (pageSize : ℚ)⌉
    ∧ (paginate S page pageSize).total = (S.length : Int)
    ∧ (paginate S page pageSize).rows
        = (S.drop (((paginate S page pageSize).page - 1) * pageSize).toNat).take pageSize.toNat
    ∧ (List.range (paginate S page pageSize).pages.toNat).flatMap
        (fun i => (paginate S ((i : Int) + 1) pageSize).rows) = S := by
  obtain ⟨hb1, hb2, hb3⟩ := ceil_div_bounds (S.length : Int) pageSize (by positivity) hk
  set pages := max 1 (((S.length : Int) + pageSize - 1) / pageSize) with hpagesdef
  have hpages : (paginate S page pageSize).pages = pages := by
    simp only [paginate, max_eq_right hk, hpagesdef]
  have hpage : (paginate S page pageSize).page = clamp page 1 pages := by
    simp only [paginate, max_eq_right hk, hpagesdef]
  have htotal : (paginate S page pageSize).total = (S.length : Int) := by
    simp only [paginate]
  have hpage1 : 1 ≤ (paginate S page pageSize).page := by
    rw [hpage]; unfold clamp; omega
  have hpagele : (paginate S page pageSize).page ≤ (paginate S page pageSize).pages := by
    rw [hpage, hpages]; unfold clamp; omega
  refine ⟨hpage1, hpagele, ?_, htotal, ?_, ?_⟩
  · rw [hpages, hpagesdef, ← ceil_div_rat (S.length : Int) pageSize (by positivity) hk]
    norm_cast
  · rw [show (paginate S page pageSize).rows = (paginate S (clamp page 1 pages) pageSize).rows
        by simp only [paginate, max_eq_right hk, hpagesdef]; rw [show
          clamp (clamp page 1 pages) 1 pages = clamp page 1 pages by unfold clamp; omega],
      ← hpage]
    exact paginate_rows_of_le S _ pageSize hk (by rw [hpage]; unfold clamp; omega)
      (by rw [hpage, ← hpagesdef]; unfold clamp; omega)
  · have hcong : ∀ i ∈ List.range (paginate S page pageSize).pages.toNat,
        (paginate S ((i : Int) + 1) pageSize).rows
          = (S.drop (i * pageSize.toNat)).take pageSize.toNat := by
      intro i hi
      rw [List.mem_range, hpages] at hi
      have hile : (i : Int) + 1 ≤ pages := by omega
      rw [paginate_rows_of_le S ((i : Int) + 1) pageSize hk (by omega) hile]
      rw [show ((i : Int) + 1 - 1) * pageSize = (i : Int) * pageSize by ring,
        toNat_nat_mul i pageSize (by omega)]
    rw [List.flatMap, List.map_congr_left hcong, ← List.flatMap]
    rw [flatMap_chunks]
    apply List.take_all_of_le
    rw [hpages]
    have hcast : ((pages.toNat * pageSize.toNat : Nat) : Int) = pages * pageSize := by
      push_cast
      rw [Int.toNat_of_nonneg (by omega : (0 : Int) ≤ pages),
        Int.toNat_of_nonneg (by omega : (0 : Int) ≤ pageSize)]
    exact_mod_cast (hcast ▸ hb1 : (S.length : Int) ≤ ((pages.toNat * pageSize.toNat : Nat) : Int))

/-- Witness for C3's `pageSize ≥ 1` hypothesis at a concrete input: page
99 of the seed ledger at page size 3 is clamped into range. -/
theorem paginate_correct_witness :
    1 ≤ (paginate transactions 99 3).page
    ∧ (paginate transactions 99 3).page ≤ (paginate transactions 99 3).pages :=
  ⟨(paginate_correct transactions 99 3 (by decide)).1,
   (paginate_correct transactions 99 3 (by decide)).2.1⟩

/-! ## C8 — the explain-this-view sentence -/

theorem joinStr_append_singleton (sep x : String) (l : List String) (h : l ≠ []) :
    joinStr sep (l ++ [x]) = joinStr sep l ++ sep ++ x := by
  induction l with
  | nil => cases h rfl
  | cons a t ih =>
    cases t with
    | nil => simp [joinStr]
    | cons b t2 =>
      have ih2 := ih (by simp)
      show joinStr sep (a :: ((b :: t2) ++ [x])) = joinStr sep (a :: b :: t2) ++ sep ++ x
      rw [show (a :: ((b :: t2) ++ [x])) = a :: b :: (t2 ++ [x])
          from by simp,
        show joinStr sep (a :: b :: (t2 ++ [x]))
            = a ++ sep ++ joinStr sep (b :: (t2 ++ [x])) from rfl,
        show joinStr sep (a :: b :: t2) = a ++ sep ++ joinStr sep (b :: t2) from rfl,
        show (b :: (t2 ++ [x])) = (b :: t2) ++ [x] from by simp, ih2]
      simp [String.ext_iff]

/-- **C8** (confirmed).  `explainTransactionsView` is the tidied sentence
`"Showing " ++ join ", " (type-clause, date-range, event link, bill link,
quoted search, sort label) ++ "."` — the clauses in the claimed fixed
order joined by `", "` (the only further processing being the source's
whitespace-before-comma cleanup pass `tidy`); on the claimed example the
output is exactly the expected sentence, containing in order "expenses",
the date range, the quoted search and "most recent first". -/
theorem explainTransactionsView_correct (f : TxnFilter) (k : TxnSortKey) :
    explainTransactionsView f k =
      tidy ("Showing " ++ joinStr ", "
        ([typeClause f] ++ dateClause f ++ eventClause f ++ billClause f ++ searchClause f
          ++ [sortLabel k]) ++ ".")
    ∧ explainTransactionsView
        { type := some (.only .expense), from_ := some "2025-11-01", to_ := some "2025-11-30",
          search := some "boba" } .date_desc =
      "Showing expenses, from 2025-11-01 to 2025-11-30, matching “boba”, most recent first." := by
  constructor
  · show tidy _ = tidy _
    congr 1
    rw [show [typeClause f] ++ dateClause f ++ eventClause f ++ billClause f ++ searchClause f
          ++ [sortLabel k]
        = ([typeClause f] ++ dateClause f ++ eventClause f ++ billClause f ++ searchClause f)
          ++ [sortLabel k] from by simp,
      joinStr_append_singleton _ _ _ (by simp)]
    simp [String.ext_iff]
  · decide

/-! ## C7 — no errors for malformed data -/

theorem mem_joinStr_substring (sep : String) (l : List String) (x : String) (h : x ∈ l) :
    x.data <:+: (joinStr sep l).data := by
  induction l with
  | nil => cases h
  | cons a t ih =>
    cases t with
    | nil =>
      rw [show x = a from by simpa using h]
      exact List.infix_refl _
    | cons b t2 =>
      rcases List.mem_cons.mp h with rfl | h2
      · show x.data <:+: (x ++ sep ++ joinStr sep (b :: t2)).data
        simp only [String.data_append]
        rw [List.append_assoc]
        exact (List.prefix_append _ _).isInfix
      · show x.data <:+: (a ++ sep ++ joinStr sep (b :: t2)).data
        simp only [String.data_append]
        exact (ih h2).trans ⟨(a ++ sep).data, [], by simp⟩

/-- **C7** (confirmed).  No operation signals an error for malformed
data: a path whose first segment is unrecognised resolves to the `home`
route (`routeOf` returns `some`, i.e. no `URIError`); an explain filter
naming an event or bill id with no seed match falls back to the raw id
inside its clause of the assembled sentence; and `paginate` totally
clamps the page into `[1, pages]` and floors `pageSize` at 1 inside the
page-count computation, for *every* page/pageSize input. -/
theorem no_error_fallbacks :
    (∀ (s seg : String) (rest : List String),
        pathParts s = seg :: rest →
        seg ∉ (["events", "ledger", "bills", "proposals", "team", "admin"] : List String) →
        routeOf s = some ParsedRoute.home)
    ∧ (∀ (f : TxnFilter) (k : TxnSortKey) (id : String), f.eventId = some id → id ≠ "" →
        events.find? (fun e => e.id == id) = none →
        ∃ pre, explainTransactionsView f k = tidy pre
          ∧ ("for event “" ++ id ++ "”").data <:+: pre.data)
    ∧ (∀ (f : TxnFilter) (k : TxnSortKey) (id : String), f.billId = some id → id ≠ "" →
        bills.find? (fun b => b.id == id) = none →
        ∃ pre, explainTransactionsView f k = tidy pre
          ∧ ("linked to bill “" ++ id ++ "”").data <:+: pre.data)
    ∧ (∀ (T : Type) (S : List T) (page pageSize : Int),
        1 ≤ (paginate S page pageSize).page
        ∧ (paginate S page pageSize).page ≤ (paginate S page pageSize).pages
        ∧ (paginate S page pageSize).pages
            = max 1 ⌈(S.length : ℚ) / ((max 1 pageSize : Int) : ℚ)⌉) := by
  refine ⟨?_, ?_, ?_, ?_⟩
  · intro s seg rest hp hmem
    simp only [List.mem_cons, List.not_mem_nil, or_false, not_or] at hmem
    obtain ⟨h1, h2, h3, h4, h5, h6⟩ := hmem
    simp only [routeOf, hp]
    rw [if_neg (by simp [h1]), if_neg (by simp [h2]), if_neg (by simp [h3]),
      if_neg (by simp [h4]), if_neg (by simp [h5]), if_neg (by simp [h6])]
  · intro f k id hev hne hfind
    refine ⟨"Showing " ++ joinStr ", "
      ([typeClause f] ++ dateClause f ++ eventClause f ++ billClause f ++ searchClause f)
      ++ ", " ++ sortLabel k ++ ".", rfl, ?_⟩
    have hclause : eventClause f = ["for event “" ++ id ++ "”"] := by
      simp only [eventClause, hev]
      rw [if_neg (by simp [hne]), hfind]
      rfl
    have hmem : ("for event “" ++ id ++ "”") ∈
        ([typeClause f] ++ dateClause f ++ eventClause f ++ billClause f ++ searchClause f) := by
      simp [hclause]
    refine (mem_joinStr_substring ", " _ _ hmem).trans ?_
    simp only [String.data_append]
    exact ⟨"Showing ".data, (", ".data ++ (sortLabel k).data ++ ".".data), by simp⟩
  · intro f k id hbill hne hfind
    refine ⟨"Showing " ++ joinStr ", "
      ([typeClause f] ++ dateClause f ++ eventClause f ++ billClause f ++ searchClause f)
      ++ ", " ++ sortLabel k ++ ".", rfl, ?_⟩
    have hclause : billClause f = ["linked to bill “" ++ id ++ "”"] := by
      simp only [billClause, hbill]
      rw [if_neg (by simp [hne]), hfind]
      rfl
    have hmem : ("linked to bill “" ++ id ++ "”") ∈
        ([typeClause f] ++ dateClause f ++ eventClause f ++ billClause f ++ searchClause f) := by
      simp [hclause]
    refine (mem_joinStr_substring ", " _ _ hmem).trans ?_
    simp only [String.data_append]
    exact ⟨"Showing ".data, (", ".data ++ (sortLabel k).data ++ ".".data), by simp⟩
  · intro T S page pageSize
    have hk : (1 : Int) ≤ max 1 pageSize := le_max_left 1 pageSize
    have hpages : (paginate S page pageSize).pages
        = max 1 (((S.length : Int) + max 1 pageSize - 1) / max 1 pageSize) := by
      simp only [paginate]
    have hpage : (paginate S page pageSize).page
        = clamp page 1 ((paginate S page pageSize).pages) := by
      simp only [paginate]
    refine ⟨?_, ?_, ?_⟩
    · rw [hpage, hpages]; unfold clamp; omega
    · rw [hpage, hpages]; unfold clamp; omega
    · rw [hpages, ← ceil_div_rat (S.length : Int) (max 1 pageSize) (by positivity) hk]
      norm_cast

/-- Witness for C7's hypotheses at concrete inputs: an unknown first
segment maps to `home`, an unmatched event id falls back to the raw id,
and `paginate` absorbs page 0 of page size 0. -/
theorem no_error_fallbacks_witness :
    routeOf "/nonsense/12" = some ParsedRoute.home
    ∧ (∃ pre, explainTransactionsView { eventId := some "nope" } .date_asc = tidy pre
        ∧ ("for event “" ++ "nope" ++ "”").data <:+: pre.data)
    ∧ 1 ≤ (paginate transactions 0 0).page :=
  ⟨no_error_fallbacks.1 "/nonsense/12" "nonsense" ["12"] (by decide) (by decide),
   no_error_fallbacks.2.1 { eventId := some "nope" } .date_asc "nope" rfl (by decide) (by decide),
   (no_error_fallbacks.2.2.2 Transaction transactions 0 0).1⟩

/-! ## C2 — route round trip -/

theorem toNat_ofNat_valid {n : Nat} (h : n.isValidChar) : (Char.ofNat n).toNat = n := by
  rw [Char.ofNat, dif_pos h]
  rfl

theorem hexVal_hexDigit (n : Nat) (h : n < 16) : hexVal (hexDigit n) = some n := by
  by_cases h10 : n < 10
  · have ht : (hexDigit n).toNat = 48 + n := by
      unfold hexDigit
      rw [if_pos h10]
      exact toNat_ofNat_valid (Or.inl (by omega))
    unfold hexVal
    simp only [ht]
    rw [if_pos (by simp; omega)]
    congr 1
    omega
  · have ht : (hexDigit n).toNat = 55 + n := by
      unfold hexDigit
      rw [if_neg h10]
      exact toNat_ofNat_valid (Or.inl (by omega))
    unfold hexVal
    simp only [ht]
    rw [if_neg (by simp; omega), if_pos (by simp; omega)]
    congr 1
    omega

theorem utf8Bytes_bytes_lt (v : Nat) (hv : v < 0x110000) :
    ∀ b ∈ utf8Bytes v, b < 256 := by
  intro b hb
  unfold utf8Bytes at hb
  by_cases h1 : v < 0x80
  · rw [if_pos h1] at hb
    simp at hb
    omega
  · rw [if_neg h1] at hb
    by_cases h2 : v < 0x800
    · rw [if_pos h2] at hb
      simp at hb
      rcases hb with rfl | rfl <;> omega
    · rw [if_neg h2] at hb
      by_cases h3 : v < 0x10000
      · rw [if_pos h3] at hb
        simp at hb
        rcases hb with rfl | rfl | rfl <;> omega
      · rw [if_neg h3] at hb
        simp at hb
        rcases hb with rfl | rfl | rfl | rfl <;> omega

theorem pctBytes_cons_pct (h l : Char) (rest : List Char) :
    pctBytes ('%' :: h :: l :: rest) =
      match hexVal h, hexVal l, pctBytes rest with
      | some hv, some lv, some bs => some ((16 * hv + lv) :: bs)
      | _, _, _ => none := by
  simp only [pctBytes]
  simp

theorem pctBytes_cons_other (c : Char) (hc : ¬ c = '%') (rest : List Char) :
    pctBytes (c :: rest) =
      match pctBytes rest with
      | some bs => some (utf8Bytes c.toNat ++ bs)
      | none => none := by
  conv_lhs => unfold pctBytes
  rw [if_neg hc]

theorem pctBytes_pctByte (b : Nat) (hb : b < 256) (rest : List Char) :
    pctBytes (pctByte b ++ rest) = (pctBytes rest).map (fun bs => b :: bs) := by
  show pctBytes ('%' :: hexDigit (b / 16) :: hexDigit (b % 16) :: rest) = _
  rw [pctBytes_cons_pct, hexVal_hexDigit (b / 16) (by omega),
    hexVal_hexDigit (b % 16) (by omega)]
  have hval : 16 * (b / 16) + b % 16 = b := by omega
  cases pctBytes rest with
  | none => rfl
  | some bs => simp [hval]

theorem pctBytes_bytes (bl : List Nat) (hbl : ∀ b ∈ bl, b < 256) (rest : List Char) :
    pctBytes (bl.flatMap pctByte ++ rest) = (pctBytes rest).map (fun bs => bl ++ bs) := by
  induction bl with
  | nil =>
    simp only [List.flatMap_nil, List.nil_append, List.nil_append]
    cases pctBytes rest <;> rfl
  | cons b t ih =>
    rw [List.flatMap_cons, List.append_assoc,
      pctBytes_pctByte b (hbl b (by simp)) _,
      ih (fun x hx => hbl x (by simp [hx]))]
    cases pctBytes rest <;> rfl

theorem pctBytes_encChar (c : Char) (rest : List Char) :
    pctBytes (encChar c ++ rest) = (pctBytes rest).map (fun bs => utf8Bytes c.toNat ++ bs) := by
  unfold encChar
  by_cases hu : isUnreserved c
  · rw [if_pos hu]
    show pctBytes (c :: rest) = _
    have hc : ¬ c = '%' := by
      intro h
      rw [h] at hu
      exact absurd hu (by decide)
    have hlow : c.toNat < 0x80 := by
      unfold isUnreserved at hu
      simp at hu
      omega
    have hascii : utf8Bytes c.toNat = [c.toNat] := by
      unfold utf8Bytes
      rw [if_pos hlow]
    rw [pctBytes_cons_other c hc, hascii]
    cases pctBytes rest <;> rfl
  · rw [if_neg hu]
    have hvlt : c.toNat < 0x110000 := by
      have hva : c.toNat < 0xd800 ∨ (0xdfff < c.toNat ∧ c.toNat < 0x110000) := c.valid
      omega
    exact pctBytes_bytes (utf8Bytes c.toNat) (utf8Bytes_bytes_lt c.toNat hvlt) rest

theorem pctBytes_enc (l : List Char) :
    pctBytes (l.flatMap encChar) = some (l.flatMap fun c => utf8Bytes c.toNat) := by
  induction l with
  | nil => rfl
  | cons c t ih =>
    rw [List.flatMap_cons, pctBytes_encChar, ih]
    rfl

theorem utf8Bytes_ne_nil (v : Nat) : utf8Bytes v ≠ [] := by
  unfold utf8Bytes
  by_cases h1 : v < 0x80
  · simp [h1]
  · by_cases h2 : v < 0x800
    · simp [h1, h2]
    · by_cases h3 : v < 0x10000 <;> simp [h1, h2, h3]

theorem utf8DecodeOne_bytes (c : Char) (bs : List Nat) :
    utf8DecodeOne (utf8Bytes c.toNat ++ bs) = some (c, bs) := by
  have hval : c.toNat < 0xd800 ∨ (0xdfff < c.toNat ∧ c.toNat < 0x110000) := c.valid
  unfold utf8Bytes
  by_cases h1 : c.toNat < 0x80
  · rw [if_pos h1]
    show utf8DecodeOne (c.toNat :: bs) = _
    simp only [utf8DecodeOne]
    rw [if_pos h1, Char.ofNat_toNat]
  · rw [if_neg h1]
    by_cases h2 : c.toNat < 0x800
    · rw [if_pos h2]
      show utf8DecodeOne ((0xC0 + c.toNat / 64) :: (0x80 + c.toNat % 64) :: bs) = _
      simp only [utf8DecodeOne]
      rw [if_neg (by omega),
        if_pos (by simp only [Bool.and_eq_true, decide_eq_true_eq]; omega),
        if_pos (by simp only [Bool.and_eq_true, decide_eq_true_eq]; omega),
        show (0xC0 + c.toNat / 64 - 0xC0) * 64 + (0x80 + c.toNat % 64 - 0x80) = c.toNat
          from by omega,
        Char.ofNat_toNat]
    · rw [if_neg h2]
      by_cases h3 : c.toNat < 0x10000
      · rw [if_pos h3]
        show utf8DecodeOne ((0xE0 + c.toNat / 4096) :: (0x80 + c.toNat / 64 % 64)
            :: (0x80 + c.toNat % 64) :: bs) = _
        simp only [utf8DecodeOne]
        rw [if_neg (by omega),
          if_neg (by simp only [Bool.and_eq_true, decide_eq_true_eq]; omega),
          if_pos (by simp only [Bool.and_eq_true, decide_eq_true_eq]; omega),
          if_pos (by
            simp only [Bool.and_eq_true, Bool.or_eq_true, decide_eq_true_eq]
            omega),
          show (0xE0 + c.toNat / 4096 - 0xE0) * 4096 + (0x80 + c.toNat / 64 % 64 - 0x80) * 64
              + (0x80 + c.toNat % 64 - 0x80) = c.toNat from by omega,
          Char.ofNat_toNat]
      · rw [if_neg h3]
        show utf8DecodeOne ((0xF0 + c.toNat / 262144) :: (0x80 + c.toNat / 4096 % 64)
            :: (0x80 + c.toNat / 64 % 64) :: (0x80 + c.toNat % 64) :: bs) = _
        simp only [utf8DecodeOne]
        rw [if_neg (by omega),
          if_neg (by simp only [Bool.and_eq_true, decide_eq_true_eq]; omega),
          if_neg (by simp only [Bool.and_eq_true, decide_eq_true_eq]; omega),
          if_pos (by simp only [Bool.and_eq_true, decide_eq_true_eq]; omega),
          if_pos (by
            simp only [Bool.and_eq_true, Bool.or_eq_true, decide_eq_true_eq]
            omega),
          show (0xF0 + c.toNat / 262144 - 0xF0) * 262144
              + (0x80 + c.toNat / 4096 % 64 - 0x80) * 4096
              + (0x80 + c.toNat / 64 % 64 - 0x80) * 64
              + (0x80 + c.toNat % 64 - 0x80) = c.toNat from by omega,
          Char.ofNat_toNat]

theorem utf8DecodeAux_enc (l : List Char) :
    ∀ fuel : Nat, (l.flatMap fun c => utf8Bytes c.toNat).length ≤ fuel →
      utf8DecodeAux fuel (l.flatMap fun c => utf8Bytes c.toNat) = some l := by
  induction l with
  | nil =>
    intro fuel _
    cases fuel <;> rfl
  | cons c t ih =>
    intro fuel hfuel
    rw [List.flatMap_cons] at hfuel ⊢
    rcases hshape : utf8Bytes c.toNat with _ | ⟨b, tail⟩
    · exact absurd hshape (utf8Bytes_ne_nil c.toNat)
    · cases fuel with
      | zero =>
        rw [hshape] at hfuel
        simp at hfuel
      | succ f =>
        have hf2 : (t.flatMap fun c => utf8Bytes c.toNat).length ≤ f := by
          rw [hshape] at hfuel
          simp only [List.cons_append, List.length_append, List.length_cons] at hfuel
          omega
        rw [List.cons_append]
        simp only [utf8DecodeAux]
        rw [show utf8DecodeOne (b :: (tail ++ t.flatMap fun c => utf8Bytes c.toNat))
            = some (c, t.flatMap fun c => utf8Bytes c.toNat) from by
          rw [← List.cons_append, ← hshape]
          exact utf8DecodeOne_bytes c _]
        simp only [ih f hf2]

theorem utf8Decode_enc (l : List Char) :
    utf8Decode (l.flatMap fun c => utf8Bytes c.toNat) = some l :=
  utf8DecodeAux_enc l _ (le_refl _)

/-- `decodeURIComponent ∘ encodeURIComponent = some`. -/
theorem decode_encode (s : String) :
    decodeURIComponent (encodeURIComponent s) = some s := by
  unfold decodeURIComponent
  rw [show (encodeURIComponent s).data = s.data.flatMap encChar from rfl]
  simp only [pctBytes_enc, utf8Decode_enc]

theorem isUnreserved_hexDigit (n : Nat) (h : n < 16) : isUnreserved (hexDigit n) = true := by
  unfold hexDigit
  by_cases h10 : n < 10
  · rw [if_pos h10]
    unfold isUnreserved
    simp only [toNat_ofNat_valid (Or.inl (by omega : (48 + n) < 0xd800))]
    simp only [Bool.or_eq_true, Bool.and_eq_true, decide_eq_true_eq, beq_iff_eq]
    omega
  · rw [if_neg h10]
    unfold isUnreserved
    simp only [toNat_ofNat_valid (Or.inl (by omega : (55 + n) < 0xd800))]
    simp only [Bool.or_eq_true, Bool.and_eq_true, decide_eq_true_eq, beq_iff_eq]
    omega

/-- Every character emitted by `encChar` is unreserved or `%`. -/
theorem encChar_mem_range (c : Char) (x : Char) (hx : x ∈ encChar c) :
    isUnreserved x = true ∨ x = '%' := by
  unfold encChar at hx
  by_cases hu : isUnreserved c
  · rw [if_pos hu] at hx
    simp at hx
    subst hx
    exact Or.inl hu
  · rw [if_neg hu] at hx
    have hvlt : c.toNat < 0x110000 := by
      have hva : c.toNat < 0xd800 ∨ (0xdfff < c.toNat ∧ c.toNat < 0x110000) := c.valid
      omega
    simp only [List.mem_flatMap] at hx
    obtain ⟨b, hb, hxb⟩ := hx
    have hblt : b < 256 := utf8Bytes_bytes_lt c.toNat hvlt b hb
    unfold pctByte at hxb
    simp at hxb
    rcases hxb with rfl | rfl | rfl
    · exact Or.inr rfl
    · exact Or.inl (isUnreserved_hexDigit (b / 16) (by omega))
    · exact Or.inl (isUnreserved_hexDigit (b % 16) (by omega))

/-- No character of an `encodeURIComponent` output is a path
metacharacter. -/
theorem enc_chars_safe (s : String) (x : Char) (hx : x ∈ (encodeURIComponent s).data) :
    x ≠ '/' ∧ x ≠ '?' ∧ x ≠ '#' ∧ x ≠ '\\' := by
  have hr : isUnreserved x = true ∨ x = '%' := by
    rw [show (encodeURIComponent s).data = s.data.flatMap encChar from rfl] at hx
    simp only [List.mem_flatMap] at hx
    obtain ⟨c, _, hxc⟩ := hx
    exact encChar_mem_range c x hxc
  rcases hr with hr | rfl
  · refine ⟨?_, ?_, ?_, ?_⟩ <;> intro h <;> subst h <;> exact absurd hr (by decide)
  · exact ⟨by decide, by decide, by decide, by decide⟩

theorem takeWhile_all {α : Type} (p : α → Bool) (l : List α) (h : ∀ c ∈ l, p c = true) :
    l.takeWhile p = l := by
  induction l with
  | nil => rfl
  | cons a t ih =>
    rw [List.takeWhile_cons, if_pos (h a (by simp)), ih (fun x hx => h x (by simp [hx]))]

theorem map_noop (f : Char → Char) (l : List Char) (h : ∀ c ∈ l, f c = c) : l.map f = l := by
  rw [List.map_congr_left h]
  simp

theorem splitSlash_no_slash (l : List Char) (h : ∀ c ∈ l, c ≠ '/') :
    splitSlash l = [⟨l⟩] := by
  induction l with
  | nil => rfl
  | cons c t ih =>
    conv_lhs => unfold splitSlash
    rw [if_neg (by simpa [beq_iff_eq] using h c (by simp)),
      ih (fun x hx => h x (by simp [hx]))]

theorem splitSlash_append_slash (l t : List Char) (h : ∀ c ∈ l, c ≠ '/') :
    splitSlash (l ++ '/' :: t) = (⟨l⟩ : String) :: splitSlash t := by
  induction l with
  | nil =>
    show splitSlash ('/' :: t) = "" :: splitSlash t
    conv_lhs => unfold splitSlash
    rw [if_pos (by simp)]
  | cons c t2 ih =>
    show splitSlash (c :: (t2 ++ '/' :: t)) = _
    conv_lhs => unfold splitSlash
    rw [if_neg (by simpa [beq_iff_eq] using h c (by simp)),
      ih (fun x hx => h x (by simp [hx]))]

/-- The id `"/" ++ kw ++ "/" ++ x` parses into the two segments, under
the expected side conditions. -/
theorem pathParts_detail (kw : String) (id : String)
    (hkw1 : ∀ c ∈ kw.data, c ≠ '/' ∧ c ≠ '?' ∧ c ≠ '#' ∧ c ≠ '\\')
    (hkw2 : isDotSeg kw = false) (hkw3 : isDotDotSeg kw = false) (hkw4 : kw ≠ "")
    (hd1 : isDotSeg (encodeURIComponent id) = false)
    (hd2 : isDotDotSeg (encodeURIComponent id) = false)
    (hd0 : encodeURIComponent id ≠ "") :
    pathParts ("/" ++ kw ++ "/" ++ encodeURIComponent id) = [kw, encodeURIComponent id] := by
  set e := encodeURIComponent id with he
  have hes : ∀ x ∈ e.data, x ≠ '/' ∧ x ≠ '?' ∧ x ≠ '#' ∧ x ≠ '\\' :=
    fun x hx => enc_chars_safe id x hx
  have hdata : ("/" ++ kw ++ "/" ++ e).data = '/' :: (kw.data ++ '/' :: e.data) := by
    simp
  unfold pathParts
  rw [hdata]
  rw [takeWhile_all _ _ (by
    intro c hc
    simp only [List.mem_cons, List.mem_append] at hc
    rcases hc with rfl | hc | rfl | hc
    · decide
    · have := hkw1 c hc
      simp only [Bool.and_eq_true, bne_iff_ne]
      exact ⟨this.2.1, this.2.2.1⟩
    · decide
    · have := hes c hc
      simp only [Bool.and_eq_true, bne_iff_ne]
      exact ⟨this.2.1, this.2.2.1⟩)]
  rw [map_noop _ _ (by
    intro c hc
    simp only [List.mem_cons, List.mem_append] at hc
    rcases hc with rfl | hc | rfl | hc
    · decide
    · rw [if_neg (by simpa [beq_iff_eq] using (hkw1 c hc).2.2.2)]
    · decide
    · rw [if_neg (by simpa [beq_iff_eq] using (hes c hc).2.2.2)])]
  rw [show splitSlash ('/' :: (kw.data ++ '/' :: e.data))
      = "" :: splitSlash (kw.data ++ '/' :: e.data) from by
    conv_lhs => unfold splitSlash
    rw [if_pos (by simp)]]
  rw [splitSlash_append_slash kw.data e.data (fun c hc => (hkw1 c hc).1)]
  rw [splitSlash_no_slash e.data (fun c hc => (hes c hc).1)]
  have hkwm : (⟨kw.data⟩ : String) = kw := rfl
  have hem : (⟨e.data⟩ : String) = e := rfl
  rw [hkwm, hem]
  rw [show removeDotSegs ["", kw, e] = ["", kw, e] from by
    unfold removeDotSegs
    simp only [List.foldl_cons, List.foldl_nil]
    rw [if_neg (show ¬ isDotSeg e = true from by simp [hd1]),
      if_neg (show ¬ isDotDotSeg e = true from by simp [hd2]),
      if_neg (show ¬ isDotSeg kw = true from by simp [hkw2]),
      if_neg (show ¬ isDotDotSeg kw = true from by simp [hkw3]),
      if_neg (show ¬ isDotSeg "" = true from by decide),
      if_neg (show ¬ isDotDotSeg "" = true from by decide)]
    rfl]
  rw [List.filter_cons, List.filter_cons, List.filter_cons]
  simp [bne_iff_ne, hkw4, hd0]

/-- A detail id is valid for the round trip when it is non-empty and not
a dot segment (`hrefFor` of those collapses under URL normalisation). -/
def validDetailId : ParsedRoute → Prop
  | .eventDetail id => id ≠ "" ∧ id ≠ "." ∧ id ≠ ".."
  | .billDetail id => id ≠ "" ∧ id ≠ "." ∧ id ≠ ".."
  | _ => True

theorem enc_ne_target (id X Y : String) (hdec : decodeURIComponent X = some Y)
    (hne : id ≠ Y) : encodeURIComponent id ≠ X := by
  intro h
  have hrt := decode_encode id
  rw [h, hdec] at hrt
  exact hne (Option.some.inj hrt).symm

theorem enc_not_dot (id : String) (h0 : id ≠ "") (h1 : id ≠ ".") (h2 : id ≠ "..") :
    isDotSeg (encodeURIComponent id) = false
    ∧ isDotDotSeg (encodeURIComponent id) = false
    ∧ encodeURIComponent id ≠ "" := by
  have e1 : encodeURIComponent id ≠ "." := enc_ne_target id "." "." (by decide) h1
  have e2 : encodeURIComponent id ≠ "%2e" := enc_ne_target id "%2e" "." (by decide) h1
  have e3 : encodeURIComponent id ≠ "%2E" := enc_ne_target id "%2E" "." (by decide) h1
  have f1 : encodeURIComponent id ≠ ".." := enc_ne_target id ".." ".." (by decide) h2
  have f2 : encodeURIComponent id ≠ ".%2e" := enc_ne_target id ".%2e" ".." (by decide) h2
  have f3 : encodeURIComponent id ≠ ".%2E" := enc_ne_target id ".%2E" ".." (by decide) h2
  have f4 : encodeURIComponent id ≠ "%2e." := enc_ne_target id "%2e." ".." (by decide) h2
  have f5 : encodeURIComponent id ≠ "%2E." := enc_ne_target id "%2E." ".." (by decide) h2
  have f6 : encodeURIComponent id ≠ "%2e%2e" := enc_ne_target id "%2e%2e" ".." (by decide) h2
  have f7 : encodeURIComponent id ≠ "%2e%2E" := enc_ne_target id "%2e%2E" ".." (by decide) h2
  have f8 : encodeURIComponent id ≠ "%2E%2e" := enc_ne_target id "%2E%2e" ".." (by decide) h2
  have f9 : encodeURIComponent id ≠ "%2E%2E" := enc_ne_target id "%2E%2E" ".." (by decide) h2
  have g0 : encodeURIComponent id ≠ "" := enc_ne_target id "" "" (by decide) h0
  refine ⟨?_, ?_, g0⟩
  · unfold isDotSeg
    simp [e1, e2, e3]
  · unfold isDotDotSeg
    simp [f1, f2, f3, f4, f5, f6, f7, f8, f9]

/-- **C2** (corrected).  For every constructible route intent whose
detail id (if any) is non-empty and not `"."`/`".."`,
`routeOf (hrefFor r) = some r`: detail ids are percent-encoded on the
way out and decoded on the way in, so ids containing `/` or spaces
survive.  The empty id does not survive (see
`routeOf_hrefFor_counterexample`), and the URL parser's dot-segment
resolution likewise collapses `"."`/`".."`. -/
theorem routeOf_hrefFor (r : ParsedRoute) (h : validDetailId r) :
    routeOf (hrefFor r) = some r := by
  cases r with
  | home => decide
  | events => decide
  | ledger => decide
  | bills => decide
  | proposals => decide
  | team => decide
  | admin => decide
  | eventDetail id =>
    obtain ⟨h0, h1, h2⟩ := h
    obtain ⟨hd1, hd2, hd0⟩ := enc_not_dot id h0 h1 h2
    have hp := pathParts_detail "events" id (by decide) (by decide) (by decide) (by decide)
      hd1 hd2 hd0
    show routeOf ("/events/" ++ encodeURIComponent id) = _
    rw [show ("/events/" ++ encodeURIComponent id : String)
        = "/" ++ "events" ++ "/" ++ encodeURIComponent id from by simp]
    simp only [routeOf, hp]
    rw [if_pos (show ("events" == "events") = true from by decide), decode_encode]
    rfl
  | billDetail id =>
    obtain ⟨h0, h1, h2⟩ := h
    obtain ⟨hd1, hd2, hd0⟩ := enc_not_dot id h0 h1 h2
    have hp := pathParts_detail "bills" id (by decide) (by decide) (by decide) (by decide)
      hd1 hd2 hd0
    show routeOf ("/bills/" ++ encodeURIComponent id) = _
    rw [show ("/bills/" ++ encodeURIComponent id : String)
        = "/" ++ "bills" ++ "/" ++ encodeURIComponent id from by simp]
    simp only [routeOf, hp]
    rw [if_neg (show ¬ ("bills" == "events") = true from by decide),
      if_neg (show ¬ ("bills" == "ledger") = true from by decide),
      if_pos (show ("bills" == "bills") = true from by decide), decode_encode]
    rfl

/-- C2 as stated is false on the code: the empty id does not survive the
round trip — `hrefFor (eventDetail "")` is `"/events/"`, whose trailing
slash is stripped, so `routeOf` returns the bare `events` route. -/
theorem routeOf_hrefFor_counterexample :
    routeOf (hrefFor (ParsedRoute.eventDetail "")) = some ParsedRoute.events
    ∧ ParsedRoute.events ≠ ParsedRoute.eventDetail "" := by decide

/-- Witness: an id with a space and a slash survives the round trip. -/
theorem routeOf_hrefFor_witness :
    validDetailId (ParsedRoute.eventDetail "a b/c")
    ∧ routeOf (hrefFor (ParsedRoute.eventDetail "a b/c"))
        = some (ParsedRoute.eventDetail "a b/c") :=
  ⟨⟨by decide, by decide, by decide⟩,
   routeOf_hrefFor (ParsedRoute.eventDetail "a b/c") ⟨by decide, by decide, by decide⟩⟩

/-! ## CSV round trip (claim C5) -/

theorem doubleQuotes_cons (a : Char) (t : List Char) :
    doubleQuotes (a :: t) =
      if a == '"' then '"' :: '"' :: doubleQuotes t else a :: doubleQuotes t := rfl

theorem joinStr_cons2 (sep a b : String) (t : List String) :
    joinStr sep (a :: b :: t) = a ++ sep ++ joinStr sep (b :: t) := rfl

theorem csvEscape_char (d : Char) (s : String) :
    csvEscape s ⟨[d]⟩ =
      if d ∈ s.data ∨ '"' ∈ s.data ∨ '\n' ∈ s.data
      then (⟨'"' :: (doubleQuotes s.data ++ ['"'])⟩ : String) else s := by
  simp only [csvEscape]
  by_cases h : d ∈ s.data ∨ '"' ∈ s.data ∨ '\n' ∈ s.data
  · have hb : ((jsIncludes s ⟨[d]⟩ || jsIncludes s "\"") || jsIncludes s "\n") = true := by
      simp only [Bool.or_eq_true]
      rcases h with h1 | h2 | h3
      · exact Or.inl (Or.inl ((jsIncludes_singleton s d).mpr h1))
      · exact Or.inl (Or.inr ((jsIncludes_singleton s '"').mpr h2))
      · exact Or.inr ((jsIncludes_singleton s '\n').mpr h3)
    rw [if_pos hb, if_pos h]
  · have hb : ¬ (((jsIncludes s ⟨[d]⟩ || jsIncludes s "\"") || jsIncludes s "\n") = true) := by
      intro hh
      simp only [Bool.or_eq_true] at hh
      apply h
      rcases hh with (h1 | h2) | h3
      · exact Or.inl ((jsIncludes_singleton s d).mp h1)
      · exact Or.inr (Or.inl ((jsIncludes_singleton s '"').mp h2))
      · exact Or.inr (Or.inr ((jsIncludes_singleton s '\n').mp h3))
    rw [if_neg hb, if_neg h]

theorem scanQuoted_round (s rest : List Char) (hr : ∀ r, rest ≠ '"' :: r) :
    scanQuoted (doubleQuotes s ++ '"' :: rest) = (s, rest) := by
  induction s with
  | nil =>
    show scanQuoted ('"' :: rest) = ([], rest)
    rw [scanQuoted.eq_def]
    simp only [if_true]
    cases rest with
    | nil => rfl
    | cons c2 r2 =>
      have hc : c2 ≠ '"' := fun h => hr r2 (by rw [h])
      exact if_neg hc
  | cons a t ih =>
    rw [doubleQuotes_cons]
    by_cases ha : a = '"'
    · rw [if_pos (by simp [ha])]
      subst ha
      rw [List.cons_append, List.cons_append]
      simp only [scanQuoted, if_true]
      rw [ih]
    · rw [if_neg (by simp [ha])]
      rw [List.cons_append, scanQuoted.eq_def]
      simp only []
      rw [if_neg ha, ih]

theorem scanTake (p : Char → Bool) (s rest : List Char)
    (hs : ∀ c ∈ s, p c = true) (hr : ∀ c r, rest = c :: r → p c = false) :
    (s ++ rest).takeWhile p = s ∧ (s ++ rest).dropWhile p = rest := by
  induction s with
  | nil =>
    simp only [List.nil_append]
    cases rest with
    | nil => exact ⟨rfl, rfl⟩
    | cons c r =>
      have hc := hr c r rfl
      rw [List.takeWhile_cons, List.dropWhile_cons,
        if_neg (by simp [hc]), if_neg (by simp [hc])]
      exact ⟨rfl, rfl⟩
  | cons a s2 ih =>
    have ha := hs a (by simp)
    have ihh := ih (fun c hc => hs c (by simp [hc]))
    rw [List.cons_append, List.takeWhile_cons, List.dropWhile_cons,
      if_pos ha, if_pos ha, ihh.1, ihh.2]
    exact ⟨rfl, rfl⟩

theorem scanField_round (d : Char) (hd1 : d ≠ '"') (hd2 : d ≠ '\n')
    (v : String) (rest : List Char)
    (hrest : rest = [] ∨ (∃ r, rest = d :: r) ∨ ∃ r, rest = '\n' :: r) :
    scanField d ((csvEscape v ⟨[d]⟩).data ++ rest) = (v.data, rest) := by
  have hrq : ∀ r, rest ≠ '"' :: r := by
    rcases hrest with rfl | ⟨r, rfl⟩ | ⟨r, rfl⟩
    · intro r2 h; exact List.noConfusion h
    · intro r2 h; injection h with h1 _; exact hd1 h1
    · intro r2 h; injection h with h1 _; exact absurd h1 (by decide)
  simp only [csvEscape]
  by_cases hn : ((jsIncludes v ⟨[d]⟩ || jsIncludes v "\"") || jsIncludes v "\n") = true
  · rw [if_pos hn]
    show scanField d (('"' :: (doubleQuotes v.data ++ ['"'])) ++ rest) = (v.data, rest)
    rw [List.cons_append, List.append_assoc, List.singleton_append, scanField.eq_def]
    simp only [if_true]
    exact scanQuoted_round v.data rest hrq
  · rw [if_neg hn]
    simp only [Bool.or_eq_true, not_or] at hn
    have hnd : d ∉ v.data := fun hm => hn.1.1 ((jsIncludes_singleton v d).mpr hm)
    have hnq : '"' ∉ v.data := fun hm => hn.1.2 ((jsIncludes_singleton v '"').mpr hm)
    have hnn : '\n' ∉ v.data := fun hm => hn.2 ((jsIncludes_singleton v '\n').mpr hm)
    cases hv : v.data with
    | nil =>
      rw [List.nil_append]
      rcases hrest with rfl | ⟨r, rfl⟩ | ⟨r, rfl⟩
      · rfl
      · rw [scanField.eq_def]
        simp only []
        rw [if_neg hd1, List.takeWhile_cons, List.dropWhile_cons,
          if_neg (by simp), if_neg (by simp)]
      · rw [scanField.eq_def]
        simp only []
        rw [if_neg (show ('\n' : Char) ≠ '"' from by decide),
          List.takeWhile_cons, List.dropWhile_cons,
          if_neg (by simp), if_neg (by simp)]
    | cons a t =>
      have ha : a ≠ '"' := by
        intro h; exact hnq (by rw [hv, h]; exact List.mem_cons_self _ _)
      obtain ⟨htk, hdr⟩ := scanTake (fun x => x != d && x != '\n') v.data rest
        (fun c hc => by
          simp only [Bool.and_eq_true, bne_iff_ne]
          exact ⟨fun h => hnd (h ▸ hc), fun h => hnn (h ▸ hc)⟩)
        (by
          rcases hrest with rfl | ⟨r, rfl⟩ | ⟨r, rfl⟩
          · intro c r2 h; exact List.noConfusion h
          · intro c r2 h; injection h with h1 _; rw [← h1]; simp
          · intro c r2 h; injection h with h1 _; rw [← h1]; simp)
      rw [List.cons_append, scanField.eq_def]
      simp only []
      rw [if_neg ha, ← List.cons_append, ← hv, htk, hdr]

theorem scanRecord_round (d : Char) (hd1 : d ≠ '"') (hd2 : d ≠ '\n') (t : List String) :
    ∀ (v : String) (rest : List Char), (rest = [] ∨ ∃ r, rest = '\n' :: r) →
      ∀ fuel : Nat, t.length + 1 ≤ fuel →
      scanRecord d fuel ((joinStr ⟨[d]⟩ ((v :: t).map (fun x => csvEscape x ⟨[d]⟩))).data ++ rest)
        = (v :: t, rest.tail) := by
  induction t with
  | nil =>
    intro v rest hrest fuel hfuel
    cases fuel with
    | zero => omega
    | succ f =>
      show scanRecord d (f + 1) ((csvEscape v ⟨[d]⟩).data ++ rest) = ([v], rest.tail)
      rcases hrest with rfl | ⟨r, rfl⟩
      · have hfield := scanField_round d hd1 hd2 v [] (Or.inl rfl)
        simp only [scanRecord, hfield]
        rfl
      · have hfield := scanField_round d hd1 hd2 v ('\n' :: r) (Or.inr (Or.inr ⟨r, rfl⟩))
        simp only [scanRecord, hfield]
        rw [if_neg (show ¬ (('\n' == d) = true) from by
          simp only [beq_iff_eq]
          exact fun h => hd2 h.symm)]
        rfl
  | cons b t2 ih =>
    intro v rest hrest fuel hfuel
    cases fuel with
    | zero => simp only [List.length_cons] at hfuel; omega
    | succ f =>
      have hsplit : (joinStr ⟨[d]⟩ ((v :: b :: t2).map (fun x => csvEscape x ⟨[d]⟩))).data ++ rest
          = (csvEscape v ⟨[d]⟩).data
            ++ (d :: ((joinStr ⟨[d]⟩ ((b :: t2).map (fun x => csvEscape x ⟨[d]⟩))).data ++ rest)) := by
        rw [List.map_cons, List.map_cons, joinStr_cons2, String.data_append, String.data_append]
        simp [List.append_assoc]
      rw [hsplit]
      have hfield := scanField_round d hd1 hd2 v
        (d :: ((joinStr ⟨[d]⟩ ((b :: t2).map (fun x => csvEscape x ⟨[d]⟩))).data ++ rest))
        (Or.inr (Or.inl ⟨_, rfl⟩))
      simp only [scanRecord, hfield]
      rw [if_pos (show (d == d) = true from by simp)]
      rw [ih b rest hrest f (by simp only [List.length_cons] at hfuel; omega)]

theorem joinStr_data_len (d : Char) (f : String → String) (t : List String) :
    ∀ v : String, t.length ≤ (joinStr ⟨[d]⟩ ((v :: t).map f)).data.length := by
  induction t with
  | nil => intro v; exact Nat.zero_le _
  | cons b t2 ih =>
    intro v
    rw [List.map_cons, List.map_cons, joinStr_cons2,
      String.data_append, String.data_append, List.length_append, List.length_append]
    have hb := ih b
    rw [List.map_cons] at hb
    have h1 : ((⟨[d]⟩ : String).data).length = 1 := rfl
    rw [h1]
    simp only [List.length_cons]
    omega

theorem joinStr_records_len (sep : String) (hsep : 1 ≤ sep.data.length) :
    ∀ ls : List String, ls.length ≤ (joinStr sep ls).data.length + 1 := by
  intro ls
  induction ls with
  | nil => simp [joinStr]
  | cons a t ih =>
    cases t with
    | nil => simp [joinStr]
    | cons b t2 =>
      rw [joinStr_cons2, String.data_append, String.data_append,
        List.length_append, List.length_append]
      simp only [List.length_cons]
      simp only [List.length_cons] at ih
      omega

theorem fromCSVAux_empty (d : Char) (fuel : Nat) : fromCSVAux d fuel [] = [] := by
  cases fuel <;> rfl

theorem fromCSVAux_step (d : Char) (hd1 : d ≠ '"') (hd2 : d ≠ '\n')
    (v : String) (t : List String) (ht : t ≠ []) (rest : List Char)
    (hrest : rest = [] ∨ ∃ r, rest = '\n' :: r) (fuel : Nat) :
    fromCSVAux d (fuel + 1)
        ((joinStr ⟨[d]⟩ ((v :: t).map (fun x => csvEscape x ⟨[d]⟩))).data ++ rest)
      = (v :: t) :: fromCSVAux d fuel rest.tail := by
  obtain ⟨b, t2, rfl⟩ : ∃ b t2, t = b :: t2 := by
    cases t with
    | nil => exact absurd rfl ht
    | cons b t2 => exact ⟨b, t2, rfl⟩
  have hlen := joinStr_data_len d (fun x => csvEscape x ⟨[d]⟩) (b :: t2) v
  obtain ⟨c, s2, hl⟩ : ∃ c s2,
      (joinStr ⟨[d]⟩ ((v :: b :: t2).map (fun x => csvEscape x ⟨[d]⟩))).data ++ rest = c :: s2 := by
    cases hj : (joinStr ⟨[d]⟩ ((v :: b :: t2).map (fun x => csvEscape x ⟨[d]⟩))).data with
    | nil =>
      rw [hj] at hlen
      simp at hlen
    | cons c s2 => exact ⟨c, s2 ++ rest, rfl⟩
  rw [hl]
  simp only [fromCSVAux]
  rw [← hl]
  have hfuel2 : (b :: t2).length + 1
      ≤ ((joinStr ⟨[d]⟩ ((v :: b :: t2).map (fun x => csvEscape x ⟨[d]⟩))).data ++ rest).length + 1 := by
    rw [List.length_append]
    simp only [List.length_cons] at hlen ⊢
    omega
  rw [scanRecord_round d hd1 hd2 (b :: t2) v rest hrest _ hfuel2]

theorem fromCSVAux_round (d : Char) (hd1 : d ≠ '"') (hd2 : d ≠ '\n') :
    ∀ (rs : List (List String)) (fuel : Nat),
      (∀ r ∈ rs, 2 ≤ r.length) → rs.length ≤ fuel →
      fromCSVAux d fuel
          (joinStr "\n" (rs.map (fun r => joinStr ⟨[d]⟩ (r.map (fun x => csvEscape x ⟨[d]⟩))))).data
        = rs := by
  intro rs
  induction rs with
  | nil => intro fuel _ _; exact fromCSVAux_empty d fuel
  | cons r rs2 ih =>
    intro fuel hlen hfuel
    obtain ⟨v, b, t2, rfl⟩ : ∃ v b t2, r = v :: b :: t2 := by
      have h2 := hlen r (by simp)
      cases r with
      | nil => simp at h2
      | cons v r2 =>
        cases r2 with
        | nil => simp at h2
        | cons b t2 => exact ⟨v, b, t2, rfl⟩
    cases fuel with
    | zero => simp at hfuel
    | succ f =>
      cases rs2 with
      | nil =>
        have hstep := fromCSVAux_step d hd1 hd2 v (b :: t2) (by simp) [] (Or.inl rfl) f
        simpa [fromCSVAux_empty] using hstep
      | cons r2 rs3 =>
        have hsplit : (joinStr "\n"
              (((v :: b :: t2) :: r2 :: rs3).map
                (fun r => joinStr ⟨[d]⟩ (r.map (fun x => csvEscape x ⟨[d]⟩))))).data
            = (joinStr ⟨[d]⟩ ((v :: b :: t2).map (fun x => csvEscape x ⟨[d]⟩))).data
              ++ ('\n' :: (joinStr "\n"
                    ((r2 :: rs3).map
                      (fun r => joinStr ⟨[d]⟩ (r.map (fun x => csvEscape x ⟨[d]⟩))))).data) := by
          simp only [List.map_cons]
          rw [joinStr_cons2, String.data_append, String.data_append]
          simp [List.append_assoc]
        rw [hsplit]
        rw [fromCSVAux_step d hd1 hd2 v (b :: t2) (by simp) _ (Or.inr ⟨_, rfl⟩) f]
        rw [show ('\n' :: (joinStr "\n"
              ((r2 :: rs3).map
                (fun r => joinStr ⟨[d]⟩ (r.map (fun x => csvEscape x ⟨[d]⟩))))).data).tail
            = (joinStr "\n"
                ((r2 :: rs3).map
                  (fun r => joinStr ⟨[d]⟩ (r.map (fun x => csvEscape x ⟨[d]⟩))))).data from rfl]
        rw [ih f (fun x hx => hlen x (by simp [hx]))
          (by simp only [List.length_cons] at hfuel ⊢; omega)]

/-- **C5** (corrected).  For a single-character delimiter other than the
double quote and the newline, and a table with at least two columns:
`csvEscape` wraps a field in double quotes — doubling internal quotes —
exactly when the field contains the delimiter, a double quote, or a
newline (and emits it verbatim otherwise, with null values rendering as
the empty string via `valueString`); and parsing `toCSV`'s output with
the standard CSV reader `fromCSV` recovers the header titles and every
cell value exactly, including values containing the delimiter, quotes,
or newlines.  The quote delimiter breaks the round trip (see
`toCSV_roundtrip_counterexample`), and a one-column table whose last
value is empty yields a trailing empty line that a standard CSV reader
drops. -/
theorem toCSV_correct {T : Type} (rows : List T) (cols : List (CSVColumn T))
    (d : Char) (s : String) (hd1 : d ≠ '"') (hd2 : d ≠ '\n') (hcols : 2 ≤ cols.length) :
    (csvEscape s ⟨[d]⟩ =
      if d ∈ s.data ∨ '"' ∈ s.data ∨ '\n' ∈ s.data
      then (⟨'"' :: (doubleQuotes s.data ++ ['"'])⟩ : String) else s)
    ∧ fromCSV d (toCSV rows cols ⟨[d]⟩)
        = cols.map CSVColumn.title
          :: rows.enum.map (fun ri => cols.map (fun c => valueString (c.value ri.2 ri.1))) := by
  refine ⟨csvEscape_char d s, ?_⟩
  by_cases hrows : rows = []
  · subst hrows
    obtain ⟨c0, t, rfl⟩ : ∃ c0 t, cols = c0 :: t := by
      cases cols with
      | nil => simp at hcols
      | cons a l => exact ⟨a, l, rfl⟩
    have ht : (t.map CSVColumn.title) ≠ [] := by
      cases t with
      | nil => simp at hcols
      | cons x xs => simp
    have hdata : (toCSV ([] : List T) (c0 :: t) ⟨[d]⟩).data
        = (joinStr ⟨[d]⟩
            ((c0.title :: t.map CSVColumn.title).map (fun x => csvEscape x ⟨[d]⟩))).data
          ++ ['\n'] := by
      simp only [toCSV]
      rw [show ([] : List T).enum = [] from rfl, List.map_nil]
      rw [show joinStr "\n" ([] : List String) = "" from rfl]
      rw [String.data_append, String.data_append]
      rw [show ("" : String).data = [] from rfl, List.append_nil]
      rw [show ("\n" : String).data = ['\n'] from rfl]
      simp [List.map_map, Function.comp_def]
    rw [show ([] : List T).enum = [] from rfl, List.map_nil]
    simp only [fromCSV]
    rw [hdata]
    rw [fromCSVAux_step d hd1 hd2 c0.title (t.map CSVColumn.title) ht ['\n']
      (Or.inr ⟨[], rfl⟩) _]
    rw [show (['\n'] : List Char).tail = ([] : List Char) from rfl, fromCSVAux_empty]
    rfl
  · have htext : toCSV rows cols ⟨[d]⟩
        = joinStr "\n"
            (((cols.map CSVColumn.title)
               :: rows.enum.map (fun ri => cols.map (fun c => valueString (c.value ri.2 ri.1)))).map
              (fun r => joinStr ⟨[d]⟩ (r.map (fun x => csvEscape x ⟨[d]⟩)))) := by
      obtain ⟨e0, es, he⟩ : ∃ e0 es, rows.enum = e0 :: es := by
        cases rows with
        | nil => exact absurd rfl hrows
        | cons a l => exact ⟨(0, a), List.enumFrom 1 l, rfl⟩
      simp only [toCSV]
      rw [he]
      simp only [List.map_cons]
      rw [joinStr_cons2]
      simp [List.map_map, Function.comp_def]
    rw [htext]
    simp only [fromCSV]
    have hfl := joinStr_records_len "\n" (by decide)
      (((cols.map CSVColumn.title)
         :: rows.enum.map (fun ri => cols.map (fun c => valueString (c.value ri.2 ri.1)))).map
        (fun r => joinStr ⟨[d]⟩ (r.map (fun x => csvEscape x ⟨[d]⟩))))
    rw [List.length_map] at hfl
    refine fromCSVAux_round d hd1 hd2 _ _ ?_ hfl
    intro r hr
    rcases List.mem_cons.mp hr with rfl | hr2
    · simpa using hcols
    · obtain ⟨ri, _, rfl⟩ := List.mem_map.mp hr2
      simpa using hcols

/-- Columns used by the counterexample: two columns whose values are
always null (rendering as empty fields). -/
def c5Cols : List (CSVColumn Nat) :=
  [⟨"a", "A", fun _ _ => none⟩, ⟨"b", "B", fun _ _ => none⟩]

/-- C5 as stated is false on the code: with the double quote as the
delimiter, `toCSV` of one all-empty row is `A"B\n"`, and a standard CSV
reader parses the `"` data line as one quoted empty field instead of the
two empty cells the columns produced. -/
theorem toCSV_roundtrip_counterexample :
    fromCSV '"' (toCSV [(0 : Nat)] c5Cols "\"") = [["A", "B"], [""]]
    ∧ ([["A", "B"], [""]] : List (List String))
        ≠ c5Cols.map CSVColumn.title
          :: [(0 : Nat)].enum.map
              (fun ri => c5Cols.map (fun c => valueString (c.value ri.2 ri.1))) := by
  decide

/-- Columns used by the witness: a value containing a doubled quote, the
delimiter, and a newline, next to a null value. -/
def wCols : List (CSVColumn Nat) :=
  [⟨"v", "Vendor", fun _ _ => some "a \"b\",\nc"⟩, ⟨"m", "Memo", fun _ _ => none⟩]

/-- Witness: with the comma delimiter and two columns — one value holding
a quote, a comma and a newline, the other null — both conjuncts of the
round-trip theorem hold at a concrete input. -/
theorem toCSV_correct_witness :
    ((',' : Char) ≠ '"' ∧ (',' : Char) ≠ '\n' ∧ 2 ≤ wCols.length)
    ∧ ((csvEscape "a,b" ⟨[',']⟩ =
          if ',' ∈ "a,b".data ∨ '"' ∈ "a,b".data ∨ '\n' ∈ "a,b".data
          then (⟨'"' :: (doubleQuotes "a,b".data ++ ['"'])⟩ : String) else "a,b")
        ∧ fromCSV ',' (toCSV [(0 : Nat)] wCols ⟨[',']⟩)
            = wCols.map CSVColumn.title
              :: [(0 : Nat)].enum.map
                  (fun ri => wCols.map (fun c => valueString (c.value ri.2 ri.1)))) :=
  ⟨⟨by decide, by decide, by decide⟩,
   toCSV_correct [(0 : Nat)] wCols ',' "a,b" (by decide) (by decide) (by decide)⟩

end SGA
